import Mathlib

/-!
# Verification of the Fastmail Calendar MCP server

A shallow embedding of `src/index.ts` (latest revision): the iCalendar
patch transformation of `update_event`, the calendar-object locator, the
tool dispatcher with its validation and error envelope, the compact
timestamp encoder `formatICalDate`, and the lazy session bootstrap
`initializeClient`.

Strings are modelled as `List Char`.  The JavaScript string primitives
used by the source (`String.prototype.replace` with the concrete regexes
`/KEY:.*\r?\n/` and `/\.\d{3}/`, `String.prototype.includes`,
`String.prototype.find`) are embedded with their ECMAScript semantics,
including leftmost-first matching, greediness of `.*`, the line
terminators not matched by `.`, and `$`-patterns in replacement strings.
-/

namespace FastmailCal

/-! ## Raw model of the JavaScript string operations -/

/-- Characters that ECMAScript `.` does not match (the regexes in the
source have no `s` flag): LF, CR, LINE SEPARATOR, PARAGRAPH SEPARATOR. -/

def dotNo (c : Char) : Bool :=
  c == '\n' || c == '\r' || c == '\u2028' || c == '\u2029'

/-- Length of the match of the regular expression `κ.*\r?\n` anchored at
the head of `l` (where `κ` stands for the literal key text, e.g.
`SUMMARY:`).  `.*` is greedy and cannot match line terminators, so the
run consumed by `.*` is exactly the maximal dot-matching run, and the
match succeeds only if that run is followed by `\n` or by `\r\n`
(backtracking `.*` cannot help, since shorter runs end at a
dot-matching character which `\r?\n` cannot match). -/
def matchLen (κ l : List Char) : Option Nat :=
  if κ.isPrefixOf l then
    let rest := l.drop κ.length
    let u := rest.takeWhile (fun c => !dotNo c)
    match rest.drop u.length with
    | '\n' :: _ => some (κ.length + u.length + 1)
    | '\r' :: '\n' :: _ => some (κ.length + u.length + 2)
    | _ => none
  else none

/-- Leftmost match of `κ.*\r?\n` in a string: returns
`(prefix, matched, suffix)` with the input equal to
`prefix ++ matched ++ suffix`, or `none` when there is no match
anywhere.  This is the search performed by a non-global
`String.prototype.replace`. -/
def splitMatch (κ : List Char) : List Char → Option (List Char × List Char × List Char)
  | [] => (matchLen κ []).map (fun n => ([], ([] : List Char).take n, ([] : List Char).drop n))
  | c :: l =>
    match matchLen κ (c :: l) with
    | some n => some ([], (c :: l).take n, (c :: l).drop n)
    | none => (splitMatch κ l).map (fun x => (c :: x.1, x.2.1, x.2.2))

/-- ECMAScript replacement-string expansion (`GetSubstitution`): `$$`
is a literal dollar, `$&` the matched text, `$` followed by a backtick
the text before the match, `$'` the text after the match; any other `$`
is literal (the source regexes have no capture groups, so `$n` is
never special). -/
def expandRepl (pre m post : List Char) : List Char → List Char
  | [] => []
  | c :: r =>
    if c = '$' then
      match r with
      | [] => ['$']
      | c2 :: r' =>
        if c2 = '$' then '$' :: expandRepl pre m post r'
        else if c2 = '&' then m ++ expandRepl pre m post r'
        else if c2 = '\u0060' then pre ++ expandRepl pre m post r'
        else if c2 = '\'' then post ++ expandRepl pre m post r'
        else '$' :: expandRepl pre m post (c2 :: r')
    else c :: expandRepl pre m post r

/-- Model of `s.replace(/κ.*\r?\n/, repl)`: replace the leftmost match, expanding
`$`-patterns in `repl`; identity when there is no match. -/
def replaceFirst (κ repl l : List Char) : List Char :=
  match splitMatch κ l with
  | some (p, m, s) => p ++ expandRepl p m s repl ++ s
  | none => l

/-- Model of `s.includes(κ)`: substring test. -/
def containsSub (κ : List Char) : List Char → Bool
  | [] => κ.isPrefixOf ([] : List Char)
  | c :: l => κ.isPrefixOf (c :: l) || containsSub κ l

/-! ## The iCalendar patch engine (`update_event`, lines 593–650)

The five property keys, the CRLF line terminator, and one function per
`if` block of the source, composed in source order.  Date fields carry
the already-formatted compact timestamp (the source validates and
formats `startDate`/`endDate` with `formatICalDate` before splicing;
the splice itself is the text transformation embedded here). -/

def CRLF : List Char := ['\r', '\n']

def kSUMMARY : List Char := "SUMMARY:".toList

def kDESCRIPTION : List Char := "DESCRIPTION:".toList

def kLOCATION : List Char := "LOCATION:".toList

def kDTSTART : List Char := "DTSTART:".toList

def kDTEND : List Char := "DTEND:".toList

/-- The ephemeral update bundle: each field present means the source's
corresponding `if` block runs.  `dtstart`/`dtend` hold the formatted
compact timestamp spliced into the DTSTART/DTEND line. -/
structure EventPatch where
  summary : Option (List Char) := none
  description : Option (List Char) := none
  location : Option (List Char) := none
  dtstart : Option (List Char) := none
  dtend : Option (List Char) := none

/-- Source block `if (summary) { updatedIcal = updatedIcal.replace(/SUMMARY:.*\r?\n/,
`SUMMARY:${summary}\r\n`); }` — note the truthiness test: an
empty-string summary is skipped. -/
def patchSummary (v : Option (List Char)) (t : List Char) : List Char :=
  match v with
  | some s => if s.isEmpty then t else replaceFirst kSUMMARY (kSUMMARY ++ s ++ CRLF) t
  | none => t

/-- Source block `if (description !== undefined) { ... }`: replace the first
DESCRIPTION match if `updatedIcal.includes("DESCRIPTION:")`, otherwise
insert after the SUMMARY match via the `$&` replacement pattern. -/
def patchDescription (v : Option (List Char)) (t : List Char) : List Char :=
  match v with
  | some d =>
    if containsSub kDESCRIPTION t then
      replaceFirst kDESCRIPTION (kDESCRIPTION ++ d ++ CRLF) t
    else
      replaceFirst kSUMMARY ('$' :: '&' :: (kDESCRIPTION ++ d ++ CRLF)) t
  | none => t

/-- Source block `if (location !== undefined) { ... }`: same insert-or-replace
policy as the description block. -/
def patchLocation (v : Option (List Char)) (t : List Char) : List Char :=
  match v with
  | some w =>
    if containsSub kLOCATION t then
      replaceFirst kLOCATION (kLOCATION ++ w ++ CRLF) t
    else
      replaceFirst kSUMMARY ('$' :: '&' :: (kLOCATION ++ w ++ CRLF)) t
  | none => t

/-- Source block `if (startDate) { ... replace(/DTSTART:.*\r?\n/, ...) }` with the
formatted timestamp already computed. -/
def patchDtstart (v : Option (List Char)) (t : List Char) : List Char :=
  match v with
  | some s => replaceFirst kDTSTART (kDTSTART ++ s ++ CRLF) t
  | none => t

/-- Source block `if (endDate) { ... replace(/DTEND:.*\r?\n/, ...) }` with the
formatted timestamp already computed. -/
def patchDtend (v : Option (List Char)) (t : List Char) : List Char :=
  match v with
  | some s => replaceFirst kDTEND (kDTEND ++ s ++ CRLF) t
  | none => t

/-- The complete patch transformation of `update_event` (lines
593–650): the five field blocks applied in source order to
`existingEvent.data`. -/
def applyPatch (p : EventPatch) (t : List Char) : List Char :=
  patchDtend p.dtend
    (patchDtstart p.dtstart
      (patchLocation p.location
        (patchDescription p.description
          (patchSummary p.summary t))))

/-! ## Line-level view of well-formed bodies

An iCalendar body in the wild is a sequence of terminated lines.  A
`Block` is one line together with its terminator.  On bodies whose five
property names occur only at starts of lines, the raw regex operations
above collapse to line-level operations, proved in this section. -/

/-- One body line with its terminator (`\n` or `\r\n`). -/

abbrev Block := List Char × List Char

/-- Concatenate blocks back into raw text. -/
def flat : List Block → List Char
  | [] => []
  | b :: bs => b.1 ++ b.2 ++ flat bs

/-- The five property keys rewritten by the patch engine. -/
def theKeys : List (List Char) := [kSUMMARY, kDESCRIPTION, kLOCATION, kDTSTART, kDTEND]

/-- A line terminator is `\n` or `\r\n`. -/
def isTerm (t : List Char) : Bool := t == ['\n'] || t == ['\r', '\n']

/-- A line body contains no line-terminator characters. -/
def lineClean (l : List Char) : Bool := l.all (fun c => !dotNo c)

/-- No occurrence of `κ` strictly inside `l` (at positions ≥ 1). -/
def noInner (κ : List Char) : List Char → Bool
  | [] => true
  | _ :: l => !(κ.isPrefixOf l) && noInner κ l

/-- Well-formed block: proper terminator, terminator-free line, and the
five property names occur in the line only as its head. -/
def wfBlock (b : Block) : Bool :=
  isTerm b.2 && lineClean b.1 && theKeys.all (fun κ => noInner κ b.1)

/-- Well-formed body: every block is well formed. -/
def wfBody (bs : List Block) : Bool := bs.all wfBlock

/-- A key: nonempty, terminator-free, dollar-free. -/
def keyGood (κ : List Char) : Bool :=
  !κ.isEmpty && κ.all (fun c => !dotNo c && c != '$')

/-- A clean patch value: terminator-free, dollar-free, and containing
none of the five property names. -/
def valClean (v : List Char) : Bool :=
  v.all (fun c => !dotNo c && c != '$') && theKeys.all (fun κ => !containsSub κ v)

/-- All present fields of a patch are clean values. -/
def patchClean (p : EventPatch) : Bool :=
  valClean (p.summary.getD []) && valClean (p.description.getD []) &&
  valClean (p.location.getD []) && valClean (p.dtstart.getD []) &&
  valClean (p.dtend.getD [])

/-- First block whose line starts with `κ`, with the blocks before and
after it. -/
def lineSplit (κ : List Char) : List Block → Option (List Block × Block × List Block)
  | [] => none
  | b :: bs =>
    if κ.isPrefixOf b.1 then some ([], b, bs)
    else (lineSplit κ bs).map (fun x => (b :: x.1, x.2.1, x.2.2))

/-- Line-level replacement: rewrite the first `κ`-prefixed line to
`κ ++ v` with a CRLF terminator. -/
def replaceLine (κ v : List Char) (bs : List Block) : List Block :=
  match lineSplit κ bs with
  | some (pre, _, post) => pre ++ ((κ ++ v, CRLF) : Block) :: post
  | none => bs

/-- Line-level insertion: add the line `w` (CRLF-terminated) right
after the first SUMMARY-prefixed line. -/
def insertLine (w : List Char) (bs : List Block) : List Block :=
  match lineSplit kSUMMARY bs with
  | some (pre, b, post) => pre ++ b :: ((w, CRLF) : Block) :: post
  | none => bs

/-- Line-level summary step. -/
def patchLineSummary (v : Option (List Char)) (bs : List Block) : List Block :=
  match v with
  | some s => if s.isEmpty then bs else replaceLine kSUMMARY s bs
  | none => bs

/-- Line-level description step (insert-or-replace). -/
def patchLineDescription (v : Option (List Char)) (bs : List Block) : List Block :=
  match v with
  | some d =>
    if (lineSplit kDESCRIPTION bs).isSome then replaceLine kDESCRIPTION d bs
    else insertLine (kDESCRIPTION ++ d) bs
  | none => bs

/-- Line-level location step (insert-or-replace). -/
def patchLineLocation (v : Option (List Char)) (bs : List Block) : List Block :=
  match v with
  | some w =>
    if (lineSplit kLOCATION bs).isSome then replaceLine kLOCATION w bs
    else insertLine (kLOCATION ++ w) bs
  | none => bs

/-- Line-level DTSTART step. -/
def patchLineDtstart (v : Option (List Char)) (bs : List Block) : List Block :=
  match v with
  | some s => replaceLine kDTSTART s bs
  | none => bs

/-- Line-level DTEND step. -/
def patchLineDtend (v : Option (List Char)) (bs : List Block) : List Block :=
  match v with
  | some s => replaceLine kDTEND s bs
  | none => bs

/-- The line-level patch transformation: the five steps in source
order. -/
def patchLines (p : EventPatch) (bs : List Block) : List Block :=
  patchLineDtend p.dtend
    (patchLineDtstart p.dtstart
      (patchLineLocation p.location
        (patchLineDescription p.description
          (patchLineSummary p.summary bs))))

/-! ## Idempotence of the line-level patch -/

/-- The first `κ`-prefixed block, if any. -/

def firstKey (κ : List Char) (bs : List Block) : Option Block :=
  (lineSplit κ bs).map (fun x => x.2.1)

/-- State of the summary field after its own pass: skipped, freshly
written, or no SUMMARY line exists. -/
def sDone (v : Option (List Char)) (bs : List Block) : Prop :=
  match v with
  | none => True
  | some s => s.isEmpty = true ∨ firstKey kSUMMARY bs = some (kSUMMARY ++ s, CRLF) ∨
      firstKey kSUMMARY bs = none

/-- State of a replace-only field (DTSTART/DTEND) after its own pass. -/
def rDone (κ : List Char) (v : Option (List Char)) (bs : List Block) : Prop :=
  match v with
  | none => True
  | some t => firstKey κ bs = some (κ ++ t, CRLF) ∨ firstKey κ bs = none

/-- State of an insert-or-replace field (DESCRIPTION/LOCATION) after
its own pass: freshly written, or absent together with SUMMARY (so the
insertion anchor is missing and the step was a no-op). -/
def iDone (κ : List Char) (v : Option (List Char)) (bs : List Block) : Prop :=
  match v with
  | none => True
  | some t => firstKey κ bs = some (κ ++ t, CRLF) ∨
      (firstKey κ bs = none ∧ firstKey kSUMMARY bs = none)

/-! ## Frame property: untouched lines are preserved -/

/-- Keys whose property lines the patch may rewrite: a present summary
is active only when nonempty (the source skips the falsy empty
string); the other four fields are active whenever present. -/

def activeKeys (p : EventPatch) : List (List Char) :=
  (match p.summary with
   | some s => if s.isEmpty then [] else [kSUMMARY]
   | none => []) ++
  (match p.description with | some _ => [kDESCRIPTION] | none => []) ++
  (match p.location with | some _ => [kLOCATION] | none => []) ++
  (match p.dtstart with | some _ => [kDTSTART] | none => []) ++
  (match p.dtend with | some _ => [kDTEND] | none => [])

/-- A block untouched by the patch: its line starts with none of the
patch's active keys. -/
def untouched (p : EventPatch) (b : Block) : Bool :=
  (activeKeys p).all (fun κ => !κ.isPrefixOf b.1)

/-! ## Claim C1: idempotence of the patch transformation -/

/-- Concrete well-formed body for the C1 witness. -/
def c1Body : List Block :=
  [("SUMMARY:old title".toList, CRLF), ("DTSTART:20240101T080000Z".toList, CRLF),
    ("DTEND:20240101T090000Z".toList, CRLF), ("END:VEVENT".toList, CRLF)]

/-- Concrete clean patch touching all five fields for the C1 witness. -/
def c1Patch : EventPatch where
  summary := some ("New title".toList)
  description := some ("notes".toList)
  location := some ("Room 5".toList)
  dtstart := some ("20250601T100000Z".toList)
  dtend := some ("20250601T110000Z".toList)

/-! ## Claim C2: frame property of the patch transformation -/

/-- The first line of a raw body, up to its first line-terminator
character. -/

def firstLine (t : List Char) : List Char := t.takeWhile (fun c => !dotNo c)

/-- Concrete well-formed body for the C2 witness. -/
def c2Body : List Block :=
  [("SUMMARY:title".toList, CRLF), ("DESCRIPTION:keep me".toList, CRLF),
    ("END:VEVENT".toList, CRLF)]

/-- Concrete patch touching only summary and location for the C2
witness. -/
def c2Patch : EventPatch where
  summary := some ("changed".toList)
  location := some ("Lobby".toList)

/-! ## Claim C3: present fields are applied, absent fields preserved -/

/-- Concrete body for the C3 witness. -/
def c3Body : List Block :=
  [("SUMMARY:s".toList, CRLF), ("DESCRIPTION:old words".toList, CRLF),
    ("END:VEVENT".toList, CRLF)]

/-- Concrete patch with an empty summary (skipped) and an empty
description (applied) for the C3 witness. -/
def c3Patch : EventPatch where
  summary := some []
  description := some []

/-! ## The compact timestamp encoder (`formatICalDate`, lines 714–719)

The host runtime's `Date.prototype.toISOString` is modelled from
ECMAScript (a delegated builtin): the simplified ISO 8601 form
`YYYY-MM-DDTHH:mm:ss.sssZ`, using the expanded six-digit signed year
when the year is negative or exceeds 9999.  The source's
`formatICalDate` is the composition of the two replace calls on that
string. -/

/-- Decimal digit character of `n % 10`. -/

def dch (n : Nat) : Char :=
  ['0', '1', '2', '3', '4', '5', '6', '7', '8', '9'].getD (n % 10) '0'

/-- Two-digit zero-padded decimal (for values below 100). -/
def pad2 (n : Nat) : List Char := [dch (n / 10), dch n]

/-- Three-digit zero-padded decimal (for values below 1000). -/
def pad3 (n : Nat) : List Char := [dch (n / 100), dch (n / 10), dch n]

/-- Four-digit zero-padded decimal (for values below 10000). -/
def pad4 (n : Nat) : List Char := [dch (n / 1000), dch (n / 100), dch (n / 10), dch n]

/-- Six-digit zero-padded decimal (for expanded years). -/
def pad6 (n : Nat) : List Char :=
  [dch (n / 100000), dch (n / 10000), dch (n / 1000), dch (n / 100), dch (n / 10), dch n]

/-- The UTC components a JavaScript `Date` renders through
`toISOString`. -/
structure DateParts where
  year : Int
  month : Nat
  day : Nat
  hour : Nat
  minute : Nat
  second : Nat
  ms : Nat

/-- The component ranges of a valid (non-NaN) `Date`. -/
def validParts (p : DateParts) : Bool :=
  (-271821 ≤ p.year && p.year ≤ 275760) && (1 ≤ p.month && p.month ≤ 12) &&
  (1 ≤ p.day && p.day ≤ 31) && p.hour ≤ 23 && p.minute ≤ 59 &&
  p.second ≤ 59 && p.ms ≤ 999

/-- Modelled from ECMAScript `Date.prototype.toISOString`
(a delegated host builtin, out of the repository's source): years 0
through 9999 use the four-digit form, other years the expanded signed
six-digit form. -/
def toISOString (p : DateParts) : List Char :=
  (if 0 ≤ p.year ∧ p.year ≤ 9999 then pad4 p.year.toNat
   else if p.year < 0 then '-' :: pad6 (-p.year).toNat
   else '+' :: pad6 p.year.toNat) ++
  '-' :: pad2 p.month ++ '-' :: pad2 p.day ++ 'T' :: pad2 p.hour ++
  ':' :: pad2 p.minute ++ ':' :: pad2 p.second ++ '.' :: pad3 p.ms ++ ['Z']

/-- The character class `[-:]` kept-complement: model of the global
replace `.replace(/[-:]/g, "")` as a filter. -/
def sepP (c : Char) : Bool := !(c == '-' || c == ':')

/-- Model of `s.replace(/[-:]/g, "")`. -/
def stripSeps (t : List Char) : List Char := t.filter sepP

/-- Matches ECMAScript `\d`: the ten ASCII digits. -/
def isDig (c : Char) : Bool := '0' ≤ c && c ≤ '9'

/-- Three digits at the head of the rest of the string (the `\d{3}`
part of `/\.\d{3}/`). -/
def fracHead : List Char → Bool
  | a :: b :: c :: _ => isDig a && isDig b && isDig c
  | _ => false

/-- Model of `s.replace(/\.\d{3}/, "")`: delete the leftmost dot
followed by three digits; scanning continues past a dot without three
digits. -/
def dropFrac : List Char → List Char
  | [] => []
  | c :: r => if c == '.' && fracHead r then r.drop 3 else c :: dropFrac r

/-- The source's `formatICalDate` (lines 714–719): `toISOString`, then
remove every '-' and ':', then remove the first `.ddd`. -/
def formatICalDate (p : DateParts) : List Char := dropFrac (stripSeps (toISOString p))

/-- The compact timestamp form the spec describes:
`YYYYMMDDTHHMMSSZ` assembled directly from the components, sub-second
precision dropped. -/
def compactForm (p : DateParts) : List Char :=
  pad4 p.year.toNat ++ pad2 p.month ++ pad2 p.day ++ 'T' :: pad2 p.hour ++
  pad2 p.minute ++ pad2 p.second ++ ['Z']

/-- Shape check for `YYYYMMDDTHHMMSSZ`: sixteen characters, digits
everywhere except `T` at index 8 and `Z` at index 15. -/
def isCompactForm : List Char → Bool
  | [y1, y2, y3, y4, m1, m2, d1, d2, t0, h1, h2, n1, n2, s1, s2, z0] =>
    isDig y1 && isDig y2 && isDig y3 && isDig y4 && isDig m1 && isDig m2 &&
    isDig d1 && isDig d2 && t0 == 'T' && isDig h1 && isDig h2 && isDig n1 &&
    isDig n2 && isDig s1 && isDig s2 && z0 == 'Z'
  | _ => false

/-! ## The tool dispatcher (`CallToolRequestSchema` handler, lines 413–709)

The external CalDAV client, the host date parser (`new Date`),
`JSON.stringify`, and `Date.now` are delegated capabilities, modelled
as an environment of abstract functions.  Each handler returns the
thrown-or-returned outcome together with the ordered list of outbound
network requests it issued. -/

/-- A calendar record as the CalDAV client returns it. -/

structure DAVCalendar where
  url : String
  displayName : String
  description : Option String := none
  timezone : Option String := none
deriving DecidableEq

/-- A calendar object (event) record. -/
structure DAVCalendarObject where
  url : String
  etag : String
  data : List Char
deriving DecidableEq

/-- One outbound CalDAV request. -/
inductive NetCall where
  | createClient
  | fetchCalendars
  | fetchObjects (calendarUrl : String) (timeRange : Option (String × String))
  | createObject (calendarUrl : String) (filename : String) (ical : List Char)
  | updateObject (url : String) (data : List Char) (etag : String)
  | deleteObject (url : String) (etag : String)
deriving DecidableEq

/-- A JavaScript `Date`: its numeric millisecond value (used by
comparisons) and the UTC components the host renders (used by
`toISOString`). -/
structure JSDate where
  ms : Int
  parts : DateParts

/-- The external world: the remote server's contents and the host
runtime's builtins. -/
structure Env where
  authResult : Except String Nat
  serverCalendars : List DAVCalendar
  objectsOf : String → List DAVCalendarObject
  objectsInRange : String → String → String → List DAVCalendarObject
  parseDate : String → Option JSDate
  nowMs : Int
  nowParts : DateParts
  createResultUrl : String
  stringifyCalendars : List (String × String × String × String) → String
  stringifyEvents : List (String × String × List Char) → String

/-- The untyped argument object of a tool call: the handler casts it
blindly (`args as {...}`), so every field may be `undefined`.  The
`etag` field exists in the bag (a caller may pass it) but the
`update_event` destructuring never names it. -/
structure ToolArgs where
  calendarUrl : Option String := none
  eventUrl : Option String := none
  summary : Option String := none
  description : Option String := none
  location : Option String := none
  startDate : Option String := none
  endDate : Option String := none
  etag : Option String := none

/-- Rendering of a possibly-undefined string in a template literal
(`${undefined}` prints as `undefined`). -/
def jsStr (o : Option String) : String := o.getD "undefined"

/-- Model of `new Date(x)` on a possibly-undefined argument:
`new Date(undefined)` is an Invalid Date. -/
def parseArgDate (env : Env) (o : Option String) : Option JSDate :=
  match o with
  | some s => env.parseDate s
  | none => none

/-- The result envelope returned to the transport: the text content
and the error flag (absent on success, modelled as `false`). -/
structure ToolResult where
  text : String
  isError : Bool := false
deriving DecidableEq

/-- The mutable session of `createServer`: the lazily created client
handle and the cached calendar list. -/
structure SessionState where
  davClient : Option Nat := none
  calendars : List DAVCalendar := []

/-- Source lines 42–57 (`initializeClient`): create the client and
fetch the calendar list on first use; later calls are no-ops.  There
is no in-flight guard: the test and the assignment are separated by
the awaited handshake. -/
def initializeClient (st : SessionState) (env : Env) :
    Except String SessionState × List NetCall :=
  match st.davClient with
  | some _ => (.ok st, [])
  | none =>
    match env.authResult with
    | .error e => (.error e, [NetCall.createClient])
    | .ok c => (.ok { davClient := some c, calendars := env.serverCalendars },
        [NetCall.createClient, NetCall.fetchCalendars])

/-- Join nonempty iCalendar lines with CRLF (the
`.filter(Boolean).join("\r\n")` of lines 536–538). -/
def joinCRLF : List (List Char) → List Char
  | [] => []
  | [l] => l
  | l :: ls => l ++ CRLF ++ joinCRLF ls

/-- The iCalendar text assembled by `create_event` (lines 522–538):
the conditional DESCRIPTION and LOCATION entries are included only
when supplied and nonempty (the falsy empty string is filtered
out). -/
def buildICal (uid : String) (stamp startP endP : DateParts)
    (summary description location : Option String) : List Char :=
  joinCRLF
    (["BEGIN:VCALENDAR".toList,
      "VERSION:2.0".toList,
      "PRODID:-//Fastmail Calendar MCP//EN".toList,
      "BEGIN:VEVENT".toList,
      ("UID:" ++ uid).toList,
      "DTSTAMP:".toList ++ formatICalDate stamp,
      "DTSTART:".toList ++ formatICalDate startP,
      "DTEND:".toList ++ formatICalDate endP,
      ("SUMMARY:" ++ jsStr summary).toList] ++
      (match description with
       | some d => if d.isEmpty then [] else [("DESCRIPTION:" ++ d).toList]
       | none => []) ++
      (match location with
       | some l0 => if l0.isEmpty then [] else [("LOCATION:" ++ l0).toList]
       | none => []) ++
      ["END:VEVENT".toList, "END:VCALENDAR".toList])

/-- Source lines 420–436 (`list_calendars`). -/
def handleListCalendars (cals : List DAVCalendar) (env : Env) :
    Except String String × List NetCall :=
  (.ok (env.stringifyCalendars (cals.map (fun cal =>
    (cal.displayName, cal.url, cal.description.getD "", cal.timezone.getD "")))), [])

/-- Source lines 438–482 (`list_events`): calendar lookup, then date
validation, then one ranged fetch. -/
def handleListEvents (cals : List DAVCalendar) (env : Env) (args : ToolArgs) :
    Except String String × List NetCall :=
  match cals.find? (fun cal => some cal.url == args.calendarUrl) with
  | none => (.error ("Calendar not found: " ++ jsStr args.calendarUrl), [])
  | some calendar =>
    match parseArgDate env args.startDate with
    | none => (.error ("Invalid start date: " ++ jsStr args.startDate), [])
    | some _ =>
      match parseArgDate env args.endDate with
      | none => (.error ("Invalid end date: " ++ jsStr args.endDate), [])
      | some _ =>
        (.ok (env.stringifyEvents
            ((env.objectsInRange calendar.url (jsStr args.startDate) (jsStr args.endDate)).map
              (fun o => (o.url, o.etag, o.data)))),
          [NetCall.fetchObjects calendar.url (some (jsStr args.startDate, jsStr args.endDate))])

/-- Source lines 484–554 (`create_event`): calendar lookup, date
validation, strict end-after-start check, then one create request. -/
def handleCreateEvent (cals : List DAVCalendar) (env : Env) (args : ToolArgs) :
    Except String String × List NetCall :=
  match cals.find? (fun cal => some cal.url == args.calendarUrl) with
  | none => (.error ("Calendar not found: " ++ jsStr args.calendarUrl), [])
  | some calendar =>
    match parseArgDate env args.startDate with
    | none => (.error ("Invalid start date: " ++ jsStr args.startDate), [])
    | some start =>
      match parseArgDate env args.endDate with
      | none => (.error ("Invalid end date: " ++ jsStr args.endDate), [])
      | some endd =>
        if endd.ms ≤ start.ms then
          (.error "End date must be after start date", [])
        else
          (.ok ("Event created successfully: " ++ jsStr args.summary ++
              "\nURL: " ++ env.createResultUrl),
            [NetCall.createObject calendar.url (toString env.nowMs ++ "@fastmail-mcp.ics")
              (buildICal (toString env.nowMs ++ "@fastmail-mcp") env.nowParts start.parts
                endd.parts args.summary args.description args.location)])

/-- Source lines 573–587 (the `update_event` locator loop): iterate
the cached calendars in order, fetch each calendar's full object set
(no time range), scan for the object with the requested url, and stop
at the first calendar containing a match. -/
def locateEvent (env : Env) (eventUrl : Option String) :
    List DAVCalendar → Option DAVCalendarObject × List NetCall
  | [] => (none, [])
  | cal :: rest =>
    match (env.objectsOf cal.url).find? (fun e => some e.url == eventUrl) with
    | some obj => (some obj, [NetCall.fetchObjects cal.url none])
    | none =>
      let r := locateEvent env eventUrl rest
      (r.1, NetCall.fetchObjects cal.url none :: r.2)

/-- One dated patch block of `update_event` (lines 630–650): skipped
when the raw argument is absent or empty (truthiness), otherwise
validated and spliced with `formatICalDate`. -/
def applyDateField (env : Env) (κ : List Char) (v : Option String) (label : String)
    (t : List Char) : Except String (List Char) :=
  match v with
  | none => .ok t
  | some s =>
    if s.isEmpty then .ok t
    else
      match env.parseDate s with
      | none => .error (label ++ s)
      | some d => .ok (replaceFirst κ (κ ++ formatICalDate d.parts ++ CRLF) t)

/-- Source lines 556–668 (`update_event`): locator first, then the
text patch blocks (summary, description, location), then the two date
blocks with their validation, then one update request carrying the
located object's etag. -/
def handleUpdateEvent (cals : List DAVCalendar) (env : Env) (args : ToolArgs) :
    Except String String × List NetCall :=
  let found := locateEvent env args.eventUrl cals
  match found.1 with
  | none => (.error ("Event not found: " ++ jsStr args.eventUrl), found.2)
  | some existingEvent =>
    let t3 := patchLocation (args.location.map String.toList)
      (patchDescription (args.description.map String.toList)
        (patchSummary (args.summary.map String.toList) existingEvent.data))
    match applyDateField env kDTSTART args.startDate "Invalid start date: " t3 with
    | .error e => (.error e, found.2)
    | .ok t4 =>
      match applyDateField env kDTEND args.endDate "Invalid end date: " t4 with
      | .error e => (.error e, found.2)
      | .ok t5 =>
        (.ok ("Event updated successfully: " ++ jsStr args.eventUrl),
          found.2 ++ [NetCall.updateObject (jsStr args.eventUrl) t5 existingEvent.etag])

/-- Source lines 670–691 (`delete_event`): one delete request with the
caller-supplied url and etag. -/
def handleDeleteEvent (args : ToolArgs) : Except String String × List NetCall :=
  (.ok ("Event deleted successfully: " ++ jsStr args.eventUrl),
    [NetCall.deleteObject (jsStr args.eventUrl) (jsStr args.etag)])

/-- The try-block of the tool-call handler (lines 416–695):
initialization first, then the switch on the operation name; an
unrecognized name throws `Unknown tool`. -/
def handleToolCall (name : String) (args : ToolArgs) (st : SessionState) (env : Env) :
    Except String String × List NetCall :=
  match initializeClient st env with
  | (.error e, tr) => (.error e, tr)
  | (.ok st', tr) =>
    let r :=
      if name = "list_calendars" then handleListCalendars st'.calendars env
      else if name = "list_events" then handleListEvents st'.calendars env args
      else if name = "create_event" then handleCreateEvent st'.calendars env args
      else if name = "update_event" then handleUpdateEvent st'.calendars env args
      else if name = "delete_event" then handleDeleteEvent args
      else (.error ("Unknown tool: " ++ name), [])
    (r.1, tr ++ r.2)

/-- The complete dispatcher (lines 413–709): the catch block converts
every failure into a result whose text is the human-readable message
and whose error flag is set; nothing escapes. -/
def callTool (name : String) (args : ToolArgs) (st : SessionState) (env : Env) :
    ToolResult × List NetCall :=
  match handleToolCall name args st env with
  | (.ok text, tr) => ({ text := text, isError := false }, tr)
  | (.error e, tr) => ({ text := "Error: " ++ e, isError := true }, tr)

/-! ## Concurrent first initialization (C9)

`initializeClient` interleaved: the session is shared state, each
caller suspends at the two awaits (`createDAVClient`,
`fetchCalendars`).  Program counters: 0 = at entry, 1 = awaiting the
handshake, 2 = awaiting the calendar fetch, 3 = done. -/

/-- The shared world of two interleaved `initializeClient` calls. -/

structure InitWorld where
  davClient : Option Nat
  calendarList : List DAVCalendar
  pcA : Nat
  pcB : Nat
  handshakes : Nat

/-- One scheduler step of caller A (`who = true`) or B: at entry the
caller tests `davClient` and, when it is still null, starts a
handshake; on resume it assigns the shared client and awaits the
calendar fetch; then it stores the calendar list. -/
def initStep (env : Env) (who : Bool) (w : InitWorld) : InitWorld :=
  let pc := if who then w.pcA else w.pcB
  let setPc := fun (w' : InitWorld) (n : Nat) =>
    if who then { w' with pcA := n } else { w' with pcB := n }
  if pc = 0 then
    match w.davClient with
    | none => setPc { w with handshakes := w.handshakes + 1 } 1
    | some _ => setPc w 3
  else if pc = 1 then
    setPc { w with davClient := some w.handshakes } 2
  else if pc = 2 then
    setPc { w with calendarList := env.serverCalendars } 3
  else w

/-- Run a schedule of interleaved steps. -/
def runInit (env : Env) : List Bool → InitWorld → InitWorld
  | [], w => w
  | s :: rest, w => runInit env rest (initStep env s w)

/-! ## Claim C8: the compact timestamp encoder -/

/-! ## Claim C4: the calendar-object locator -/

/-- Calendar A of the C4 witness scenario. -/
def c4CalA : DAVCalendar := { url := "A", displayName := "A" }

/-- Calendar B of the C4 witness scenario. -/
def c4CalB : DAVCalendar := { url := "B", displayName := "B" }

/-- Calendar C of the C4 witness scenario (contains the target). -/
def c4CalC : DAVCalendar := { url := "C", displayName := "C" }

/-- Calendar D of the C4 witness scenario (never fetched). -/
def c4CalD : DAVCalendar := { url := "D", displayName := "D" }

/-- The target event of the C4 witness scenario, stored only in C. -/
def c4Obj : DAVCalendarObject := { url := "EV", etag := "e1", data := [] }

/-- Environment of the C4 witness scenario. -/
def c4Env : Env where
  authResult := .ok 0
  serverCalendars := [c4CalA, c4CalB, c4CalC, c4CalD]
  objectsOf := fun u => if u = "C" then [c4Obj] else []
  objectsInRange := fun _ _ _ => []
  parseDate := fun _ => none
  nowMs := 0
  nowParts := ⟨2024, 1, 1, 0, 0, 0, 0⟩
  createResultUrl := ""
  stringifyCalendars := fun _ => ""
  stringifyEvents := fun _ => ""

/-! ## Claim C5: validation order relative to network calls -/

/-- The single calendar of the C5 counterexample. -/

def c5Cal : DAVCalendar := { url := "calA", displayName := "A" }

/-- The event of the C5 counterexample, present in calendar A. -/
def c5Obj : DAVCalendarObject :=
  { url := "E1", etag := "W1", data := "SUMMARY:s\r\nEND:VEVENT\r\n".toList }

/-- Environment of the C5 counterexample: every date string is
unparseable. -/
def c5Env : Env where
  authResult := .ok 0
  serverCalendars := [c5Cal]
  objectsOf := fun _ => [c5Obj]
  objectsInRange := fun _ _ _ => []
  parseDate := fun _ => none
  nowMs := 0
  nowParts := ⟨2024, 1, 1, 0, 0, 0, 0⟩
  createResultUrl := ""
  stringifyCalendars := fun _ => ""
  stringifyEvents := fun _ => ""

/-- Arguments of the C5 counterexample: a malformed startDate. -/
def c5Args : ToolArgs := { eventUrl := some "E1", startDate := some "BAD" }

/-- Environment of the C5 witness: every date string parses to one
fixed instant. -/
def c5WitEnv : Env where
  authResult := .ok 0
  serverCalendars := [c5Cal]
  objectsOf := fun _ => []
  objectsInRange := fun _ _ _ => []
  parseDate := fun _ => some ⟨0, ⟨2024, 1, 1, 10, 0, 0, 0⟩⟩
  nowMs := 0
  nowParts := ⟨2024, 1, 1, 0, 0, 0, 0⟩
  createResultUrl := ""
  stringifyCalendars := fun _ => ""
  stringifyEvents := fun _ => ""

/-- Arguments of the C5 witness: end instant equal to the start
instant. -/
def c5WitArgs : ToolArgs where
  calendarUrl := some "calA"
  summary := some "T"
  startDate := some "2024-01-01T10:00:00Z"
  endDate := some "2024-01-01T10:00:00Z"

/-! ## Claim C6: calendar membership check before any fetch -/

/-- The single cached calendar of the C6 witness. -/
def c6Cal : DAVCalendar := { url := "calA", displayName := "A" }

/-- Environment of the C6 witness. -/
def c6Env : Env where
  authResult := .ok 0
  serverCalendars := [c6Cal]
  objectsOf := fun _ => []
  objectsInRange := fun _ _ _ => []
  parseDate := fun _ => none
  nowMs := 0
  nowParts := ⟨2024, 1, 1, 0, 0, 0, 0⟩
  createResultUrl := ""
  stringifyCalendars := fun _ => ""
  stringifyEvents := fun _ => ""

/-- Arguments of the C6 witness: a calendar url matching nothing. -/
def c6Args : ToolArgs where
  calendarUrl := some "calMISSING"
  startDate := some "2024-01-01"
  endDate := some "2024-01-02"

/-! ## Claim C7: the uniform error envelope -/

/-- Environment of the C7 witness. -/
def c7Env : Env where
  authResult := .ok 0
  serverCalendars := []
  objectsOf := fun _ => []
  objectsInRange := fun _ _ _ => []
  parseDate := fun _ => none
  nowMs := 0
  nowParts := ⟨2024, 1, 1, 0, 0, 0, 0⟩
  createResultUrl := ""
  stringifyCalendars := fun _ => ""
  stringifyEvents := fun _ => ""

/-- An already-initialized session for the C7 witness. -/
def c7State : SessionState := { davClient := some 0, calendars := [] }

/-! ## Claim C9: concurrent first initialization -/

/-- Environment for the C9 schedule runs. -/

def c9Env : Env where
  authResult := .ok 0
  serverCalendars := [{ url := "calA", displayName := "A" }]
  objectsOf := fun _ => []
  objectsInRange := fun _ _ _ => []
  parseDate := fun _ => none
  nowMs := 0
  nowParts := ⟨2024, 1, 1, 0, 0, 0, 0⟩
  createResultUrl := ""
  stringifyCalendars := fun _ => ""
  stringifyEvents := fun _ => ""

/-! ## Claim C10: the update etag is never caller-supplied -/

/-- Calendar of the C10 witness. -/
def c10Cal : DAVCalendar := { url := "calA", displayName := "A" }

/-- The located object of the C10 witness, with server etag `W9`. -/
def c10Obj : DAVCalendarObject :=
  { url := "E1", etag := "W9", data := "SUMMARY:s\r\nEND:VEVENT\r\n".toList }

/-- Environment of the C10 witness. -/
def c10Env : Env where
  authResult := .ok 0
  serverCalendars := [c10Cal]
  objectsOf := fun _ => [c10Obj]
  objectsInRange := fun _ _ _ => []
  parseDate := fun _ => none
  nowMs := 0
  nowParts := ⟨2024, 1, 1, 0, 0, 0, 0⟩
  createResultUrl := ""
  stringifyCalendars := fun _ => ""
  stringifyEvents := fun _ => ""

/-- Arguments of the C10 witness: the caller supplies an etag of its
own (`CALLER`), which the handler never reads. -/
def c10Args : ToolArgs where
  eventUrl := some "E1"
  summary := some "T"
  etag := some "CALLER"

/-! ## Bridge lemmas: raw regex operations on well-formed bodies are
line-level operations -/

theorem flat_append (a b : List Block) : flat (a ++ b) = flat a ++ flat b := by
  induction a with
  | nil => rfl
  | cons x a ih => simp [flat, ih]

theorem matchLen_none_of_not_pref {κ l : List Char}
    (h : κ.isPrefixOf l = false) : matchLen κ l = none := by
  simp [matchLen, h]

theorem splitMatch_head {κ l : List Char} {n : Nat} (h : matchLen κ l = some n) :
    splitMatch κ l = some ([], l.take n, l.drop n) := by
  cases l with
  | nil => simp [splitMatch, h]
  | cons c l => simp [splitMatch, h]

theorem splitMatch_cons_none {κ : List Char} {c : Char} {l : List Char}
    (h : matchLen κ (c :: l) = none) :
    splitMatch κ (c :: l) = (splitMatch κ l).map (fun x => (c :: x.1, x.2.1, x.2.2)) := by
  simp [splitMatch, h]

theorem containsSub_cons (κ : List Char) (c : Char) (l : List Char) :
    containsSub κ (c :: l) = (κ.isPrefixOf (c :: l) || containsSub κ l) := rfl

theorem containsSub_of_pref {κ l : List Char} (h : κ.isPrefixOf l = true) :
    containsSub κ l = true := by
  cases l with
  | nil => simpa [containsSub] using h
  | cons c l => simp [containsSub_cons, h]

theorem containsSub_of_prefix_drop {κ v : List Char} {q : Nat}
    (h : κ.isPrefixOf (v.drop q) = true) : containsSub κ v = true := by
  induction v generalizing q with
  | nil => simpa [containsSub] using containsSub_of_pref (l := []) (by simpa using h)
  | cons c v ih =>
    cases q with
    | zero => exact containsSub_of_pref (by simpa using h)
    | succ q => simp [containsSub_cons, ih (q := q) (by simpa using h)]

theorem noInner_drop {κ l : List Char} {q : Nat} (hκ : κ ≠ [])
    (h : noInner κ l = true) (hq : 0 < q) : κ.isPrefixOf (l.drop q) = false := by
  induction l generalizing q with
  | nil =>
    obtain ⟨c, κ, rfl⟩ : ∃ c κ', κ = c :: κ' := by
      cases κ with
      | nil => exact absurd rfl hκ
      | cons c κ => exact ⟨c, κ, rfl⟩
    simp [List.isPrefixOf]
  | cons b l ih =>
    simp only [noInner, Bool.and_eq_true, Bool.not_eq_true'] at h
    cases q with
    | zero => omega
    | succ q =>
      cases Nat.eq_zero_or_pos q with
      | inl h0 => subst h0; simpa using h.1
      | inr hpos => simpa using ih h.2 hpos

theorem noInner_of_forall_drop {κ l : List Char}
    (h : ∀ q, 0 < q → κ.isPrefixOf (l.drop q) = false) : noInner κ l = true := by
  induction l with
  | nil => rfl
  | cons b l ih =>
    simp only [noInner, Bool.and_eq_true, Bool.not_eq_true']
    refine ⟨by simpa using h 1 (by omega), ih fun q hq => ?_⟩
    simpa using h (q + 1) (by omega)

theorem takeWhile_all_stop {p : Char → Bool} {a : List Char} {b : Char} {r : List Char}
    (ha : ∀ c ∈ a, p c = true) (hb : p b = false) :
    List.takeWhile p (a ++ b :: r) = a := by
  induction a with
  | nil => simp [List.takeWhile, hb]
  | cons c a ih =>
    have hc : p c = true := ha c (by simp)
    simp only [List.cons_append, List.takeWhile_cons, hc, if_true]
    rw [ih fun x hx => ha x (by simp [hx])]

theorem keyGood_ne_nil {κ : List Char} (h : keyGood κ = true) : κ ≠ [] := by
  intro hn
  subst hn
  simp [keyGood] at h

theorem keyGood_not_dotNo {κ : List Char} (h : keyGood κ = true) {c : Char}
    (hc : c ∈ κ) : dotNo c = false := by
  simp only [keyGood, Bool.and_eq_true, List.all_eq_true] at h
  have := h.2 c hc
  simp only [Bool.and_eq_true, Bool.not_eq_true'] at this
  exact this.1

theorem keyGood_no_dollar {κ : List Char} (h : keyGood κ = true) {c : Char}
    (hc : c ∈ κ) : c ≠ '$' := by
  simp only [keyGood, Bool.and_eq_true, List.all_eq_true] at h
  have := h.2 c hc
  simp only [Bool.and_eq_true] at this
  simpa using this.2

theorem head_mem_of_pref {κ : List Char} {c : Char} {t : List Char}
    (hκ : κ ≠ []) (h : κ <+: c :: t) : c ∈ κ := by
  obtain ⟨k, κ', rfl⟩ : ∃ k κ', κ = k :: κ' := by
    cases κ with
    | nil => exact absurd rfl hκ
    | cons k κ' => exact ⟨k, κ', rfl⟩
  rw [List.cons_prefix_cons] at h
  simp [h.1]

theorem blockNoPrefix {κ l term : List Char} (t : List Char) {q : Nat}
    (hκ : keyGood κ = true) (hni : noInner κ l = true)
    (hterm : isTerm term = true)
    (h0 : q = 0 → κ.isPrefixOf l = false)
    (hq : q < (l ++ term).length) :
    κ.isPrefixOf ((l ++ term).drop q ++ t) = false := by
  have hκn : κ ≠ [] := keyGood_ne_nil hκ
  have htc : term = ['\n'] ∨ term = ['\r', '\n'] := by
    rcases Bool.or_eq_true _ _ |>.mp hterm with h | h
    · exact Or.inl (by simpa using h)
    · exact Or.inr (by simpa using h)
  by_contra hcon
  rw [Bool.not_eq_false, List.isPrefixOf_iff_prefix] at hcon
  rw [List.drop_append_eq_append_drop] at hcon
  rcases Nat.lt_or_ge q l.length with hlt | hge
  · have hz : q - l.length = 0 := by omega
    rw [hz, List.drop_zero, List.append_assoc] at hcon
    have halen : (l.drop q).length = l.length - q := List.length_drop q l
    have hane : l.drop q ≠ [] := by
      intro h
      rw [h] at halen
      simp at halen
      omega
    rcases le_or_lt κ.length (l.drop q).length with hle | hgt
    · have hpa : κ <+: l.drop q :=
        List.prefix_of_prefix_length_le hcon (List.prefix_append _ _) hle
      have hpa' : κ.isPrefixOf (l.drop q) = true := List.isPrefixOf_iff_prefix.mpr hpa
      rcases Nat.eq_zero_or_pos q with h0' | hpos
      · subst h0'
        rw [List.drop_zero] at hpa'
        exact absurd hpa' (by simp [h0 rfl])
      · exact absurd hpa' (by simp [noInner_drop hκn hni hpos])
    · have hap : l.drop q <+: κ :=
        List.prefix_of_prefix_length_le (List.prefix_append _ _) hcon (by omega)
      obtain ⟨κ₂, hκ₂⟩ := hap
      have hκ₂len : (l.drop q).length + κ₂.length = κ.length := by
        rw [← hκ₂, List.length_append]
      have hκ₂ne : κ₂ ≠ [] := by
        intro h
        rw [h] at hκ₂len
        simp at hκ₂len
        omega
      rw [← hκ₂, List.prefix_append_right_inj] at hcon
      rcases htc with h | h
      · subst h
        have hmem : '\n' ∈ κ₂ := head_mem_of_pref hκ₂ne (by simpa using hcon)
        have : dotNo '\n' = false :=
          keyGood_not_dotNo hκ (by rw [← hκ₂]; exact List.mem_append_right _ hmem)
        simp [dotNo] at this
      · subst h
        have hmem : '\r' ∈ κ₂ := head_mem_of_pref hκ₂ne (by simpa using hcon)
        have : dotNo '\r' = false :=
          keyGood_not_dotNo hκ (by rw [← hκ₂]; exact List.mem_append_right _ hmem)
        simp [dotNo] at this
  · have hdl : l.drop q = [] := List.drop_eq_nil_of_le (by omega)
    rw [hdl, List.nil_append] at hcon
    have hr : q - l.length < term.length := by
      rw [List.length_append] at hq
      omega
    rcases htc with h | h
    · subst h
      have hz : q - l.length = 0 := by simp at hr; omega
      rw [hz, List.drop_zero] at hcon
      have hmem : '\n' ∈ κ := head_mem_of_pref hκn (by simpa using hcon)
      have : dotNo '\n' = false := keyGood_not_dotNo hκ hmem
      simp [dotNo] at this
    · subst h
      have hz : q - l.length = 0 ∨ q - l.length = 1 := by simp at hr; omega
      rcases hz with hz | hz
      · rw [hz, List.drop_zero] at hcon
        have hmem : '\r' ∈ κ := head_mem_of_pref hκn (by simpa using hcon)
        have : dotNo '\r' = false := keyGood_not_dotNo hκ hmem
        simp [dotNo] at this
      · rw [hz] at hcon
        have hmem : '\n' ∈ κ := head_mem_of_pref hκn (by simpa using hcon)
        have : dotNo '\n' = false := keyGood_not_dotNo hκ hmem
        simp [dotNo] at this

theorem matchLen_block {κ l term : List Char} (t : List Char)
    (hp : κ.isPrefixOf l = true)
    (hcl : lineClean l = true) (hterm : isTerm term = true) :
    matchLen κ (l ++ (term ++ t)) = some (l.length + term.length) := by
  obtain ⟨l', rfl⟩ : ∃ l', l = κ ++ l' := by
    obtain ⟨l', h⟩ := List.isPrefixOf_iff_prefix.mp hp
    exact ⟨l', h.symm⟩
  have hpre : κ.isPrefixOf ((κ ++ l') ++ (term ++ t)) = true := by
    rw [List.isPrefixOf_iff_prefix, List.append_assoc]
    exact List.prefix_append κ _
  have hl' : ∀ c ∈ l', (!dotNo c) = true := by
    intro c hc
    exact List.all_eq_true.mp hcl c (by simp [hc])
  have htc : term = ['\n'] ∨ term = ['\r', '\n'] := by
    rcases Bool.or_eq_true _ _ |>.mp hterm with h | h
    · exact Or.inl (by simpa using h)
    · exact Or.inr (by simpa using h)
  simp only [matchLen, hpre, if_true]
  rw [List.append_assoc, List.drop_left]
  rcases htc with h | h
  · subst h
    rw [show l' ++ (['\n'] ++ t) = l' ++ '\n' :: t from by simp]
    rw [takeWhile_all_stop hl' (by decide)]
    rw [show l' ++ '\n' :: t = l' ++ ('\n' :: t) from by simp, List.drop_left]
    simp [List.length_append]
  · subst h
    rw [show l' ++ (['\r', '\n'] ++ t) = l' ++ '\r' :: '\n' :: t from by simp]
    rw [takeWhile_all_stop hl' (by decide)]
    rw [show l' ++ '\r' :: '\n' :: t = l' ++ ('\r' :: '\n' :: t) from by simp, List.drop_left]
    simp [List.length_append]

theorem splitMatch_append_none {κ : List Char} (x t : List Char)
    (h : ∀ q, q < x.length → κ.isPrefixOf (x.drop q ++ t) = false) :
    splitMatch κ (x ++ t) = (splitMatch κ t).map (fun y => (x ++ y.1, y.2.1, y.2.2)) := by
  induction x with
  | nil => cases hs : splitMatch κ t <;> simp [hs]
  | cons c x ih =>
    have h0 : κ.isPrefixOf (c :: (x ++ t)) = false := by
      simpa using h 0 (by simp)
    rw [List.cons_append, splitMatch_cons_none (matchLen_none_of_not_pref h0)]
    rw [ih (fun q hq => by simpa using h (q + 1) (by simp only [List.length_cons]; omega))]
    cases hs : splitMatch κ t <;> simp [hs]

theorem containsSub_append_none {κ : List Char} (x t : List Char)
    (h : ∀ q, q < x.length → κ.isPrefixOf (x.drop q ++ t) = false) :
    containsSub κ (x ++ t) = containsSub κ t := by
  induction x with
  | nil => simp
  | cons c x ih =>
    have h0 : κ.isPrefixOf (c :: (x ++ t)) = false := by
      simpa using h 0 (by simp)
    rw [List.cons_append, containsSub_cons, h0]
    simpa using ih (fun q hq => by simpa using h (q + 1) (by simp only [List.length_cons]; omega))

theorem wfBody_block {bs : List Block} (h : wfBody bs = true) {b : Block} (hb : b ∈ bs) :
    isTerm b.2 = true ∧ lineClean b.1 = true ∧ ∀ κ ∈ theKeys, noInner κ b.1 = true := by
  have := List.all_eq_true.mp h b hb
  simp only [wfBlock, Bool.and_eq_true, List.all_eq_true] at this
  exact ⟨this.1.1, this.1.2, this.2⟩

theorem wfBody_cons_tail {b : Block} {bs : List Block}
    (h : wfBody (b :: bs) = true) : wfBody bs = true := by
  simp only [wfBody, List.all_cons, Bool.and_eq_true] at h
  exact h.2

theorem splitMatch_flat {κ : List Char} {bs : List Block}
    (hκ : keyGood κ = true) (hk : κ ∈ theKeys) (hwf : wfBody bs = true) :
    splitMatch κ (flat bs) =
      (lineSplit κ bs).map (fun x => (flat x.1, x.2.1.1 ++ x.2.1.2, flat x.2.2)) := by
  induction bs with
  | nil =>
    have hnp : κ.isPrefixOf ([] : List Char) = false := by
      cases κ with
      | nil => exact absurd rfl (keyGood_ne_nil hκ)
      | cons c κ => rfl
    simp [flat, splitMatch, lineSplit, matchLen_none_of_not_pref hnp]
  | cons b bs ih =>
    have hwfb := wfBody_block hwf (List.mem_cons_self b bs)
    have hwfs : wfBody bs = true := wfBody_cons_tail hwf
    have hflat : flat (b :: bs) = (b.1 ++ b.2) ++ flat bs := rfl
    by_cases hp : κ.isPrefixOf b.1 = true
    · have hm : matchLen κ ((b.1 ++ b.2) ++ flat bs) = some (b.1 ++ b.2).length := by
        rw [List.append_assoc, List.length_append]
        exact matchLen_block (flat bs) hp hwfb.2.1 hwfb.1
      rw [hflat, splitMatch_head hm, List.take_left, List.drop_left]
      simp [lineSplit, hp, flat]
    · have hpf : κ.isPrefixOf b.1 = false := Bool.eq_false_iff.mpr hp
      have hstep : ∀ q, q < (b.1 ++ b.2).length →
          κ.isPrefixOf ((b.1 ++ b.2).drop q ++ flat bs) = false := by
        intro q hq
        exact blockNoPrefix (flat bs) hκ (hwfb.2.2 κ hk) hwfb.1 (fun _ => hpf) hq
      rw [hflat, splitMatch_append_none _ _ hstep, ih hwfs]
      rw [show lineSplit κ (b :: bs) = (lineSplit κ bs).map (fun x => (b :: x.1, x.2.1, x.2.2))
        from by simp [lineSplit, hpf]]
      cases hs : lineSplit κ bs <;> simp [hs, flat, List.append_assoc]

theorem containsSub_flat {κ : List Char} {bs : List Block}
    (hκ : keyGood κ = true) (hk : κ ∈ theKeys) (hwf : wfBody bs = true) :
    containsSub κ (flat bs) = (lineSplit κ bs).isSome := by
  induction bs with
  | nil =>
    have hnp : κ.isPrefixOf ([] : List Char) = false := by
      cases κ with
      | nil => exact absurd rfl (keyGood_ne_nil hκ)
      | cons c κ => rfl
    simp [flat, containsSub, lineSplit, hnp]
  | cons b bs ih =>
    have hwfb := wfBody_block hwf (List.mem_cons_self b bs)
    have hwfs : wfBody bs = true := wfBody_cons_tail hwf
    have hflat : flat (b :: bs) = (b.1 ++ b.2) ++ flat bs := rfl
    by_cases hp : κ.isPrefixOf b.1 = true
    · have hpre : κ.isPrefixOf (flat (b :: bs)) = true := by
        rw [List.isPrefixOf_iff_prefix] at hp ⊢
        rw [hflat, List.append_assoc]
        exact hp.trans (List.prefix_append _ _)
      rw [containsSub_of_pref hpre]
      simp [lineSplit, hp]
    · have hpf : κ.isPrefixOf b.1 = false := Bool.eq_false_iff.mpr hp
      have hstep : ∀ q, q < (b.1 ++ b.2).length →
          κ.isPrefixOf ((b.1 ++ b.2).drop q ++ flat bs) = false := by
        intro q hq
        exact blockNoPrefix (flat bs) hκ (hwfb.2.2 κ hk) hwfb.1 (fun _ => hpf) hq
      rw [hflat, containsSub_append_none _ _ hstep, ih hwfs]
      simp [lineSplit, hpf]

theorem expandRepl_cons_ne {pre m post : List Char} {c : Char} (r : List Char)
    (hc : c ≠ '$') : expandRepl pre m post (c :: r) = c :: expandRepl pre m post r := by
  conv_lhs => rw [expandRepl.eq_def]
  simp only []
  rw [if_neg hc]

theorem expandRepl_no_dollar {pre m post r : List Char}
    (h : ∀ c ∈ r, c ≠ '$') : expandRepl pre m post r = r := by
  induction r with
  | nil => rfl
  | cons c r ih =>
    have hc : c ≠ '$' := h c (by simp)
    rw [expandRepl_cons_ne r hc]
    exact congrArg (List.cons c) (ih fun x hx => h x (by simp [hx]))

theorem expandRepl_amp (pre m post r : List Char) :
    expandRepl pre m post ('$' :: '&' :: r) = m ++ expandRepl pre m post r := rfl

theorem crlf_no_dollar : ∀ c ∈ CRLF, c ≠ '$' := by decide

theorem replaceFirst_flat {κ : List Char} (v : List Char) {bs : List Block}
    (hκ : keyGood κ = true) (hk : κ ∈ theKeys) (hwf : wfBody bs = true)
    (hv : ∀ c ∈ v, c ≠ '$') :
    replaceFirst κ (κ ++ v ++ CRLF) (flat bs) = flat (replaceLine κ v bs) := by
  have hnd : ∀ c ∈ κ ++ v ++ CRLF, c ≠ '$' := by
    intro c hc
    rcases List.mem_append.mp hc with hc | hc
    · rcases List.mem_append.mp hc with hc | hc
      · exact keyGood_no_dollar hκ hc
      · exact hv c hc
    · exact crlf_no_dollar c hc
  unfold replaceFirst replaceLine
  rw [splitMatch_flat hκ hk hwf]
  cases hs : lineSplit κ bs with
  | none => rfl
  | some x =>
    obtain ⟨pre, b, post⟩ := x
    simp only [Option.map_some']
    rw [expandRepl_no_dollar hnd]
    simp [flat_append, flat, List.append_assoc]

theorem insertFirst_flat (w : List Char) {bs : List Block}
    (hwf : wfBody bs = true) (hw : ∀ c ∈ w, c ≠ '$') :
    replaceFirst kSUMMARY ('$' :: '&' :: (w ++ CRLF)) (flat bs) = flat (insertLine w bs) := by
  have hκ : keyGood kSUMMARY = true := by decide
  have hk : kSUMMARY ∈ theKeys := by decide
  have hnd : ∀ c ∈ w ++ CRLF, c ≠ '$' := by
    intro c hc
    rcases List.mem_append.mp hc with hc | hc
    · exact hw c hc
    · exact crlf_no_dollar c hc
  unfold replaceFirst insertLine
  rw [splitMatch_flat hκ hk hwf]
  cases hs : lineSplit kSUMMARY bs with
  | none => rfl
  | some x =>
    obtain ⟨pre, b, post⟩ := x
    simp only [Option.map_some']
    rw [expandRepl_amp, expandRepl_no_dollar hnd]
    simp [flat_append, flat, List.append_assoc]

theorem lineSplit_eq {κ : List Char} {bs pre post : List Block} {b : Block}
    (h : lineSplit κ bs = some (pre, b, post)) :
    bs = pre ++ b :: post ∧ (∀ b' ∈ pre, κ.isPrefixOf b'.1 = false) ∧
      κ.isPrefixOf b.1 = true := by
  induction bs generalizing pre with
  | nil => simp [lineSplit] at h
  | cons x bs ih =>
    by_cases hp : κ.isPrefixOf x.1 = true
    · simp only [lineSplit, hp, if_true, Option.some.injEq, Prod.mk.injEq] at h
      obtain ⟨h1, h2, h3⟩ := h
      subst h1
      subst h2
      subst h3
      exact ⟨rfl, by simp, hp⟩
    · have hpf : κ.isPrefixOf x.1 = false := Bool.eq_false_iff.mpr hp
      simp only [lineSplit, hpf, Bool.false_eq_true, if_false] at h
      cases hs : lineSplit κ bs with
      | none => rw [hs] at h; simp at h
      | some y =>
        obtain ⟨pre', b', post'⟩ := y
        rw [hs] at h
        simp only [Option.map_some', Option.some.injEq, Prod.mk.injEq] at h
        obtain ⟨h1, h2, h3⟩ := h
        subst h2
        subst h3
        obtain ⟨ha, hb, hc⟩ := ih hs
        subst ha
        rw [← h1]
        refine ⟨by simp, ?_, hc⟩
        intro b' hb'
        rcases List.mem_cons.mp hb' with rfl | hb'
        · exact hpf
        · exact hb b' hb'

theorem lineSplit_mk {κ : List Char} {pre post : List Block} {b : Block}
    (hpre : ∀ b' ∈ pre, κ.isPrefixOf b'.1 = false) (hb : κ.isPrefixOf b.1 = true) :
    lineSplit κ (pre ++ b :: post) = some (pre, b, post) := by
  induction pre with
  | nil => simp [lineSplit, hb]
  | cons x pre ih =>
    have hx : κ.isPrefixOf x.1 = false := hpre x (by simp)
    simp [lineSplit, hx, ih (fun b' h' => hpre b' (by simp [h']))]

theorem lineSplit_none_iff {κ : List Char} {bs : List Block} :
    lineSplit κ bs = none ↔ ∀ b ∈ bs, κ.isPrefixOf b.1 = false := by
  induction bs with
  | nil => simp [lineSplit]
  | cons x bs ih =>
    by_cases hp : κ.isPrefixOf x.1 = true
    · simp [lineSplit, hp]
    · have hpf : κ.isPrefixOf x.1 = false := Bool.eq_false_iff.mpr hp
      simp [lineSplit, hpf, ih]

/-! ## Key facts (decided on the five concrete keys) and well-formedness
preservation -/

theorem keys_good : ∀ κ ∈ theKeys, keyGood κ = true := by decide

theorem keys_not_pref : ∀ κ1 ∈ theKeys, ∀ κ2 ∈ theKeys, κ1 ≠ κ2 →
    κ1.isPrefixOf κ2 = false := by decide

theorem keys_noInner : ∀ κ1 ∈ theKeys, ∀ κ2 ∈ theKeys, noInner κ1 κ2 = true := by decide

theorem keys_colon : ∀ κ ∈ theKeys,
    (κ.dropLast.all (fun c => c != ':') && (κ.getLast? == some ':')) = true := by decide

theorem keyNotPrefix {κ1 κ2 : List Char} (v : List Char) (h1 : κ1 ∈ theKeys)
    (h2 : κ2 ∈ theKeys) (hne : κ1 ≠ κ2) : κ1.isPrefixOf (κ2 ++ v) = false := by
  by_contra hcon
  rw [Bool.not_eq_false, List.isPrefixOf_iff_prefix] at hcon
  rcases le_or_lt κ1.length κ2.length with hle | hgt
  · have hpp : κ1 <+: κ2 := List.prefix_of_prefix_length_le hcon (List.prefix_append _ _) hle
    have hb := List.isPrefixOf_iff_prefix.mpr hpp
    rw [keys_not_pref κ1 h1 κ2 h2 hne] at hb
    exact Bool.false_ne_true hb
  · have hpp : κ2 <+: κ1 :=
      List.prefix_of_prefix_length_le (List.prefix_append _ _) hcon (by omega)
    have hb := List.isPrefixOf_iff_prefix.mpr hpp
    rw [keys_not_pref κ2 h2 κ1 h1 (Ne.symm hne)] at hb
    exact Bool.false_ne_true hb

theorem valClean_no_dollar {v : List Char} (h : valClean v = true) : ∀ c ∈ v, c ≠ '$' := by
  intro c hc
  simp only [valClean, Bool.and_eq_true, List.all_eq_true] at h
  have := h.1 c hc
  simp only [Bool.and_eq_true] at this
  simpa using this.2

theorem valClean_not_dotNo {v : List Char} (h : valClean v = true) {c : Char} (hc : c ∈ v) :
    dotNo c = false := by
  simp only [valClean, Bool.and_eq_true, List.all_eq_true] at h
  have := h.1 c hc
  simp only [Bool.and_eq_true, Bool.not_eq_true'] at this
  exact this.1

theorem valClean_no_key {v : List Char} (h : valClean v = true) {κ : List Char}
    (hκ : κ ∈ theKeys) : containsSub κ v = false := by
  simp only [valClean, Bool.and_eq_true, List.all_eq_true] at h
  have := h.2 κ hκ
  simpa using this

theorem noInner_keyLine {κ κ2 v : List Char} (hκ : κ ∈ theKeys) (hκ2 : κ2 ∈ theKeys)
    (hv : valClean v = true) : noInner κ2 (κ ++ v) = true := by
  have hg2 : keyGood κ2 = true := keys_good κ2 hκ2
  have hne2 : κ2 ≠ [] := keyGood_ne_nil hg2
  apply noInner_of_forall_drop
  intro q hq
  by_contra hcon
  rw [Bool.not_eq_false, List.isPrefixOf_iff_prefix] at hcon
  rw [List.drop_append_eq_append_drop] at hcon
  rcases Nat.lt_or_ge q κ.length with hlt | hge
  · have hz : q - κ.length = 0 := by omega
    rw [hz, List.drop_zero] at hcon
    have halen : (κ.drop q).length = κ.length - q := List.length_drop q κ
    rcases le_or_lt κ2.length (κ.drop q).length with hle | hgt
    · have hpa : κ2 <+: κ.drop q :=
        List.prefix_of_prefix_length_le hcon (List.prefix_append _ _) hle
      have hb : κ2.isPrefixOf (κ.drop q) = true := List.isPrefixOf_iff_prefix.mpr hpa
      rw [noInner_drop hne2 (keys_noInner κ2 hκ2 κ hκ) hq] at hb
      exact Bool.false_ne_true hb
    · have hane : κ.drop q ≠ [] := by
        intro h
        rw [h] at halen
        simp at halen
        omega
      have hap : κ.drop q <+: κ2 :=
        List.prefix_of_prefix_length_le (List.prefix_append _ _) hcon (by omega)
      have hκcolon := keys_colon κ hκ
      simp only [Bool.and_eq_true, beq_iff_eq] at hκcolon
      have hcolon : (κ.drop q).getLast? = some ':' := by
        calc (κ.drop q).getLast? = (κ.take q ++ κ.drop q).getLast? :=
              (List.getLast?_append_of_ne_nil _ hane).symm
          _ = κ.getLast? := by rw [List.take_append_drop]
          _ = some ':' := hκcolon.2
      have hmem : ':' ∈ κ.drop q := List.mem_of_mem_getLast? (by simp [hcolon])
      have hsub : κ.drop q <+: κ2.dropLast := by
        rw [List.prefix_iff_eq_take] at hap ⊢
        rw [List.dropLast_eq_take, List.take_take, Nat.min_eq_left (by omega)]
        exact hap
      have hmem2 : ':' ∈ κ2.dropLast := hsub.subset hmem
      have hκ2colon := keys_colon κ2 hκ2
      simp only [Bool.and_eq_true, List.all_eq_true] at hκ2colon
      have := hκ2colon.1 ':' hmem2
      simp at this
  · have hdz : κ.drop q = [] := List.drop_eq_nil_of_le hge
    rw [hdz, List.nil_append] at hcon
    have hb : κ2.isPrefixOf (v.drop (q - κ.length)) = true := List.isPrefixOf_iff_prefix.mpr hcon
    have hcs := containsSub_of_prefix_drop hb
    rw [valClean_no_key hv hκ2] at hcs
    exact Bool.false_ne_true hcs

theorem wfBlock_keyLine {κ v : List Char} (hκ : κ ∈ theKeys) (hv : valClean v = true) :
    wfBlock (κ ++ v, CRLF) = true := by
  simp only [wfBlock, Bool.and_eq_true, List.all_eq_true]
  refine ⟨⟨by decide, ?_⟩, ?_⟩
  · simp only [lineClean, List.all_append, Bool.and_eq_true]
    constructor
    · exact List.all_eq_true.mpr fun c hc => by
        simp [keyGood_not_dotNo (keys_good κ hκ) hc]
    · exact List.all_eq_true.mpr fun c hc => by
        simp [valClean_not_dotNo hv hc]
  · intro κ2 hκ2
    exact noInner_keyLine hκ hκ2 hv

theorem wfBody_replaceLine {κ v : List Char} {bs : List Block} (hκ : κ ∈ theKeys)
    (hv : valClean v = true) (hwf : wfBody bs = true) :
    wfBody (replaceLine κ v bs) = true := by
  unfold replaceLine
  cases hs : lineSplit κ bs with
  | none => exact hwf
  | some x =>
    obtain ⟨pre, b, post⟩ := x
    obtain ⟨hbs, -, -⟩ := lineSplit_eq hs
    subst hbs
    simp only [wfBody, List.all_append, List.all_cons, Bool.and_eq_true] at hwf ⊢
    exact ⟨hwf.1, wfBlock_keyLine hκ hv, hwf.2.2⟩

theorem wfBody_insertLine {κ' v : List Char} {bs : List Block} (hκ' : κ' ∈ theKeys)
    (hv : valClean v = true) (hwf : wfBody bs = true) :
    wfBody (insertLine (κ' ++ v) bs) = true := by
  unfold insertLine
  cases hs : lineSplit kSUMMARY bs with
  | none => exact hwf
  | some x =>
    obtain ⟨pre, b, post⟩ := x
    obtain ⟨hbs, -, -⟩ := lineSplit_eq hs
    subst hbs
    simp only [wfBody, List.all_append, List.all_cons, Bool.and_eq_true] at hwf ⊢
    exact ⟨hwf.1, hwf.2.1, wfBlock_keyLine hκ' hv, hwf.2.2⟩

theorem patchClean_summary {p : EventPatch} (h : patchClean p = true) :
    valClean (p.summary.getD []) = true := by
  simp only [patchClean, Bool.and_eq_true] at h
  exact h.1.1.1.1

theorem patchClean_description {p : EventPatch} (h : patchClean p = true) :
    valClean (p.description.getD []) = true := by
  simp only [patchClean, Bool.and_eq_true] at h
  exact h.1.1.1.2

theorem patchClean_location {p : EventPatch} (h : patchClean p = true) :
    valClean (p.location.getD []) = true := by
  simp only [patchClean, Bool.and_eq_true] at h
  exact h.1.1.2

theorem patchClean_dtstart {p : EventPatch} (h : patchClean p = true) :
    valClean (p.dtstart.getD []) = true := by
  simp only [patchClean, Bool.and_eq_true] at h
  exact h.1.2

theorem patchClean_dtend {p : EventPatch} (h : patchClean p = true) :
    valClean (p.dtend.getD []) = true := by
  simp only [patchClean, Bool.and_eq_true] at h
  exact h.2

/-! ## The patch engine on well-formed bodies is the line-level patch -/

theorem patchSummary_flat {v : Option (List Char)} {bs : List Block}
    (hwf : wfBody bs = true) (hv : valClean (v.getD []) = true) :
    patchSummary v (flat bs) = flat (patchLineSummary v bs) ∧
      wfBody (patchLineSummary v bs) = true := by
  cases v with
  | none => exact ⟨rfl, hwf⟩
  | some s =>
    have hvs : valClean s = true := by simpa using hv
    have hk : kSUMMARY ∈ theKeys := by decide
    cases hse : s.isEmpty with
    | true => simp [patchSummary, patchLineSummary, hse, hwf]
    | false =>
      simp only [patchSummary, patchLineSummary, hse, Bool.false_eq_true, if_false]
      exact ⟨replaceFirst_flat s (by decide) hk hwf (valClean_no_dollar hvs),
        wfBody_replaceLine hk hvs hwf⟩

theorem patchDescription_flat {v : Option (List Char)} {bs : List Block}
    (hwf : wfBody bs = true) (hv : valClean (v.getD []) = true) :
    patchDescription v (flat bs) = flat (patchLineDescription v bs) ∧
      wfBody (patchLineDescription v bs) = true := by
  cases v with
  | none => exact ⟨rfl, hwf⟩
  | some d =>
    have hvd : valClean d = true := by simpa using hv
    have h1 : keyGood kDESCRIPTION = true := by decide
    have hk : kDESCRIPTION ∈ theKeys := by decide
    have hc := containsSub_flat h1 hk hwf
    simp only [patchDescription, patchLineDescription, hc]
    cases hs : (lineSplit kDESCRIPTION bs).isSome with
    | true =>
      simp only [if_true]
      exact ⟨replaceFirst_flat d h1 hk hwf (valClean_no_dollar hvd),
        wfBody_replaceLine hk hvd hwf⟩
    | false =>
      simp only [Bool.false_eq_true, if_false]
      have hw : ∀ c ∈ kDESCRIPTION ++ d, c ≠ '$' := by
        intro c hc'
        rcases List.mem_append.mp hc' with hc' | hc'
        · exact keyGood_no_dollar h1 hc'
        · exact valClean_no_dollar hvd c hc'
      exact ⟨insertFirst_flat (kDESCRIPTION ++ d) hwf hw,
        wfBody_insertLine hk hvd hwf⟩

theorem patchLocation_flat {v : Option (List Char)} {bs : List Block}
    (hwf : wfBody bs = true) (hv : valClean (v.getD []) = true) :
    patchLocation v (flat bs) = flat (patchLineLocation v bs) ∧
      wfBody (patchLineLocation v bs) = true := by
  cases v with
  | none => exact ⟨rfl, hwf⟩
  | some w =>
    have hvw : valClean w = true := by simpa using hv
    have h1 : keyGood kLOCATION = true := by decide
    have hk : kLOCATION ∈ theKeys := by decide
    have hc := containsSub_flat h1 hk hwf
    simp only [patchLocation, patchLineLocation, hc]
    cases hs : (lineSplit kLOCATION bs).isSome with
    | true =>
      simp only [if_true]
      exact ⟨replaceFirst_flat w h1 hk hwf (valClean_no_dollar hvw),
        wfBody_replaceLine hk hvw hwf⟩
    | false =>
      simp only [Bool.false_eq_true, if_false]
      have hw : ∀ c ∈ kLOCATION ++ w, c ≠ '$' := by
        intro c hc'
        rcases List.mem_append.mp hc' with hc' | hc'
        · exact keyGood_no_dollar h1 hc'
        · exact valClean_no_dollar hvw c hc'
      exact ⟨insertFirst_flat (kLOCATION ++ w) hwf hw,
        wfBody_insertLine hk hvw hwf⟩

theorem patchDtstart_flat {v : Option (List Char)} {bs : List Block}
    (hwf : wfBody bs = true) (hv : valClean (v.getD []) = true) :
    patchDtstart v (flat bs) = flat (patchLineDtstart v bs) ∧
      wfBody (patchLineDtstart v bs) = true := by
  cases v with
  | none => exact ⟨rfl, hwf⟩
  | some t =>
    have hvt : valClean t = true := by simpa using hv
    have hk : kDTSTART ∈ theKeys := by decide
    simp only [patchDtstart, patchLineDtstart]
    exact ⟨replaceFirst_flat t (by decide) hk hwf (valClean_no_dollar hvt),
      wfBody_replaceLine hk hvt hwf⟩

theorem patchDtend_flat {v : Option (List Char)} {bs : List Block}
    (hwf : wfBody bs = true) (hv : valClean (v.getD []) = true) :
    patchDtend v (flat bs) = flat (patchLineDtend v bs) ∧
      wfBody (patchLineDtend v bs) = true := by
  cases v with
  | none => exact ⟨rfl, hwf⟩
  | some t =>
    have hvt : valClean t = true := by simpa using hv
    have hk : kDTEND ∈ theKeys := by decide
    simp only [patchDtend, patchLineDtend]
    exact ⟨replaceFirst_flat t (by decide) hk hwf (valClean_no_dollar hvt),
      wfBody_replaceLine hk hvt hwf⟩

/-- On a well-formed body with a clean patch, the raw patch
transformation of the source equals the line-level patch, and the
result is again well formed. -/
theorem applyPatch_flat {p : EventPatch} {bs : List Block}
    (hwf : wfBody bs = true) (hp : patchClean p = true) :
    applyPatch p (flat bs) = flat (patchLines p bs) ∧
      wfBody (patchLines p bs) = true := by
  obtain ⟨e1, w1⟩ := patchSummary_flat hwf (patchClean_summary hp)
  obtain ⟨e2, w2⟩ := patchDescription_flat w1 (patchClean_description hp)
  obtain ⟨e3, w3⟩ := patchLocation_flat w2 (patchClean_location hp)
  obtain ⟨e4, w4⟩ := patchDtstart_flat w3 (patchClean_dtstart hp)
  obtain ⟨e5, w5⟩ := patchDtend_flat w4 (patchClean_dtend hp)
  refine ⟨?_, w5⟩
  simp only [applyPatch, patchLines, e1, e2, e3, e4, e5]

theorem firstKey_cons_pos {κ : List Char} {b : Block} (bs : List Block)
    (h : κ.isPrefixOf b.1 = true) : firstKey κ (b :: bs) = some b := by
  simp [firstKey, lineSplit, h]

theorem firstKey_cons_neg {κ : List Char} {b : Block} (bs : List Block)
    (h : κ.isPrefixOf b.1 = false) : firstKey κ (b :: bs) = firstKey κ bs := by
  simp only [firstKey, lineSplit, h, Bool.false_eq_true, if_false]
  cases lineSplit κ bs <;> rfl

theorem firstKey_none_iff {κ : List Char} {bs : List Block} :
    firstKey κ bs = none ↔ lineSplit κ bs = none := by
  unfold firstKey
  cases lineSplit κ bs <;> simp

theorem not_prefix_of_other_key {κ κ2 l : List Char} (h1 : κ ∈ theKeys)
    (h2 : κ2 ∈ theKeys) (hne : κ ≠ κ2) (hp : κ2.isPrefixOf l = true) :
    κ.isPrefixOf l = false := by
  by_contra hcon
  rw [Bool.not_eq_false, List.isPrefixOf_iff_prefix] at hcon
  rw [List.isPrefixOf_iff_prefix] at hp
  rcases le_or_lt κ.length κ2.length with hle | hgt
  · have := List.isPrefixOf_iff_prefix.mpr (List.prefix_of_prefix_length_le hcon hp hle)
    rw [keys_not_pref κ h1 κ2 h2 hne] at this
    exact Bool.false_ne_true this
  · have := List.isPrefixOf_iff_prefix.mpr (List.prefix_of_prefix_length_le hp hcon (by omega))
    rw [keys_not_pref κ2 h2 κ h1 (Ne.symm hne)] at this
    exact Bool.false_ne_true this

theorem replaceLine_eq_of_firstKey {κ v : List Char} {bs : List Block}
    (h : firstKey κ bs = some (κ ++ v, CRLF)) : replaceLine κ v bs = bs := by
  unfold replaceLine
  cases hs : lineSplit κ bs with
  | none => rfl
  | some x =>
    obtain ⟨pre, b, post⟩ := x
    obtain ⟨hbs, -, -⟩ := lineSplit_eq hs
    have hb : b = (κ ++ v, CRLF) := by
      simpa [firstKey, hs] using h
    rw [hbs, hb]

theorem replaceLine_eq_of_none {κ v : List Char} {bs : List Block}
    (h : lineSplit κ bs = none) : replaceLine κ v bs = bs := by
  unfold replaceLine
  rw [h]

theorem insertLine_eq_of_none {w : List Char} {bs : List Block}
    (h : lineSplit kSUMMARY bs = none) : insertLine w bs = bs := by
  unfold insertLine
  rw [h]

theorem prefix_self_append {κ v : List Char} : κ.isPrefixOf (κ ++ v) = true :=
  List.isPrefixOf_iff_prefix.mpr (List.prefix_append _ _)

theorem firstKey_replaceLine_self {κ v : List Char} {bs : List Block}
    (h : (lineSplit κ bs).isSome = true) :
    firstKey κ (replaceLine κ v bs) = some (κ ++ v, CRLF) := by
  unfold replaceLine
  cases hs : lineSplit κ bs with
  | none => rw [hs] at h; simp at h
  | some x =>
    obtain ⟨pre, b, post⟩ := x
    obtain ⟨hbs, hpre, -⟩ := lineSplit_eq hs
    rw [firstKey, lineSplit_mk hpre prefix_self_append]
    rfl

theorem firstKey_congr_mid {κ : List Char} {x y : Block} (pre post : List Block)
    (hx : κ.isPrefixOf x.1 = false) (hy : κ.isPrefixOf y.1 = false) :
    firstKey κ (pre ++ x :: post) = firstKey κ (pre ++ y :: post) := by
  induction pre with
  | nil =>
    rw [List.nil_append, List.nil_append, firstKey_cons_neg post hx,
      firstKey_cons_neg post hy]
  | cons b pre ih =>
    cases hb : κ.isPrefixOf b.1 with
    | true =>
      rw [List.cons_append, List.cons_append, firstKey_cons_pos _ hb,
        firstKey_cons_pos _ hb]
    | false =>
      rw [List.cons_append, List.cons_append, firstKey_cons_neg _ hb,
        firstKey_cons_neg _ hb, ih]

theorem firstKey_drop_mid {κ : List Char} {x : Block} (pre post : List Block)
    (hx : κ.isPrefixOf x.1 = false) :
    firstKey κ (pre ++ x :: post) = firstKey κ (pre ++ post) := by
  induction pre with
  | nil => rw [List.nil_append, List.nil_append, firstKey_cons_neg post hx]
  | cons b pre ih =>
    cases hb : κ.isPrefixOf b.1 with
    | true =>
      rw [List.cons_append, List.cons_append, firstKey_cons_pos _ hb,
        firstKey_cons_pos _ hb]
    | false =>
      rw [List.cons_append, List.cons_append, firstKey_cons_neg _ hb,
        firstKey_cons_neg _ hb, ih]

theorem firstKey_replaceLine_other {κ κ2 v2 : List Char} {bs : List Block}
    (h1 : κ ∈ theKeys) (h2 : κ2 ∈ theKeys) (hne : κ ≠ κ2) :
    firstKey κ (replaceLine κ2 v2 bs) = firstKey κ bs := by
  unfold replaceLine
  cases hs : lineSplit κ2 bs with
  | none => rfl
  | some x =>
    obtain ⟨pre, b, post⟩ := x
    obtain ⟨hbs, -, hb⟩ := lineSplit_eq hs
    rw [hbs]
    exact firstKey_congr_mid pre post
      (keyNotPrefix v2 h1 h2 hne) (not_prefix_of_other_key h1 h2 hne hb)

theorem firstKey_insertLine {κ κ2 v2 : List Char} {bs : List Block}
    (h1 : κ ∈ theKeys) (h2 : κ2 ∈ theKeys) (hne : κ ≠ κ2) :
    firstKey κ (insertLine (κ2 ++ v2) bs) = firstKey κ bs := by
  unfold insertLine
  cases hs : lineSplit kSUMMARY bs with
  | none => rfl
  | some x =>
    obtain ⟨pre, b, post⟩ := x
    obtain ⟨hbs, -, hb⟩ := lineSplit_eq hs
    rw [hbs]
    have hnew : κ.isPrefixOf (κ2 ++ v2) = false := keyNotPrefix v2 h1 h2 hne
    have hmid : firstKey κ (pre ++ b :: (κ2 ++ v2, CRLF) :: post) =
        firstKey κ (pre ++ b :: post) := by
      have hshape : pre ++ b :: (κ2 ++ v2, CRLF) :: post =
          (pre ++ [b]) ++ ((κ2 ++ v2, CRLF) : Block) :: post := by simp
      have hshape2 : pre ++ b :: post = (pre ++ [b]) ++ post := by simp
      rw [hshape, hshape2]
      exact firstKey_drop_mid (pre ++ [b]) post hnew
    exact hmid

theorem firstKey_insert_self {κ2 v2 : List Char} {bs : List Block}
    (hnone : lineSplit κ2 bs = none)
    (hsum : (lineSplit kSUMMARY bs).isSome = true) :
    firstKey κ2 (insertLine (κ2 ++ v2) bs) = some (κ2 ++ v2, CRLF) := by
  unfold insertLine
  cases hs : lineSplit kSUMMARY bs with
  | none => rw [hs] at hsum; simp at hsum
  | some x =>
    obtain ⟨pre, b, post⟩ := x
    obtain ⟨hbs, -, -⟩ := lineSplit_eq hs
    have hall := lineSplit_none_iff.mp hnone
    have hpre2 : ∀ b' ∈ pre ++ [b], κ2.isPrefixOf b'.1 = false := by
      intro b' hb'
      apply hall
      rw [hbs]
      rcases List.mem_append.mp hb' with h | h
      · exact List.mem_append_left _ h
      · simp only [List.mem_singleton] at h
        subst h
        simp
    have hshape : pre ++ b :: (κ2 ++ v2, CRLF) :: post =
        (pre ++ [b]) ++ ((κ2 ++ v2, CRLF) : Block) :: post := by simp
    have hres : firstKey κ2 ((pre ++ [b]) ++ ((κ2 ++ v2, CRLF) : Block) :: post) =
        some (κ2 ++ v2, CRLF) := by
      rw [firstKey, lineSplit_mk hpre2 prefix_self_append]
      rfl
    show firstKey κ2 (pre ++ b :: (κ2 ++ v2, CRLF) :: post) = some (κ2 ++ v2, CRLF)
    rw [hshape]
    exact hres

theorem isSome_false_eq_none {α : Type} {o : Option α} (h : o.isSome = false) : o = none := by
  cases o with
  | none => rfl
  | some a => simp at h

theorem sDone_congr {v : Option (List Char)} {bs bs' : List Block}
    (hfk : firstKey kSUMMARY bs' = firstKey kSUMMARY bs) (h : sDone v bs) :
    sDone v bs' := by
  cases v with
  | none => trivial
  | some s =>
    rcases h with h | h | h
    · exact Or.inl h
    · exact Or.inr (Or.inl (hfk.trans h))
    · exact Or.inr (Or.inr (hfk.trans h))

theorem rDone_congr {κ : List Char} {v : Option (List Char)} {bs bs' : List Block}
    (hfk : firstKey κ bs' = firstKey κ bs) (h : rDone κ v bs) :
    rDone κ v bs' := by
  cases v with
  | none => trivial
  | some t =>
    rcases h with h | h
    · exact Or.inl (hfk.trans h)
    · exact Or.inr (hfk.trans h)

theorem iDone_congr {κ : List Char} {v : Option (List Char)} {bs bs' : List Block}
    (hfk : firstKey κ bs' = firstKey κ bs)
    (hfs : firstKey kSUMMARY bs' = firstKey kSUMMARY bs) (h : iDone κ v bs) :
    iDone κ v bs' := by
  cases v with
  | none => trivial
  | some t =>
    rcases h with h | ⟨h1, h2⟩
    · exact Or.inl (hfk.trans h)
    · exact Or.inr ⟨hfk.trans h1, hfs.trans h2⟩

theorem patchLineSummary_id {v : Option (List Char)} {bs : List Block} (h : sDone v bs) :
    patchLineSummary v bs = bs := by
  cases v with
  | none => rfl
  | some s =>
    rcases h with h | h | h
    · simp [patchLineSummary, h]
    · cases hse : s.isEmpty with
      | true => simp [patchLineSummary, hse]
      | false =>
        simp only [patchLineSummary, hse, Bool.false_eq_true, if_false]
        exact replaceLine_eq_of_firstKey h
    · cases hse : s.isEmpty with
      | true => simp [patchLineSummary, hse]
      | false =>
        simp only [patchLineSummary, hse, Bool.false_eq_true, if_false]
        exact replaceLine_eq_of_none (firstKey_none_iff.mp h)

theorem patchLineDtstart_id {v : Option (List Char)} {bs : List Block}
    (h : rDone kDTSTART v bs) : patchLineDtstart v bs = bs := by
  cases v with
  | none => rfl
  | some t =>
    rcases h with h | h
    · exact replaceLine_eq_of_firstKey h
    · exact replaceLine_eq_of_none (firstKey_none_iff.mp h)

theorem patchLineDtend_id {v : Option (List Char)} {bs : List Block}
    (h : rDone kDTEND v bs) : patchLineDtend v bs = bs := by
  cases v with
  | none => rfl
  | some t =>
    rcases h with h | h
    · exact replaceLine_eq_of_firstKey h
    · exact replaceLine_eq_of_none (firstKey_none_iff.mp h)

theorem firstKey_some_isSome {κ : List Char} {bs : List Block} {b : Block}
    (h : firstKey κ bs = some b) : (lineSplit κ bs).isSome = true := by
  unfold firstKey at h
  cases hs : lineSplit κ bs with
  | none => rw [hs] at h; simp at h
  | some x => rfl

theorem patchLineDescription_id {v : Option (List Char)} {bs : List Block}
    (h : iDone kDESCRIPTION v bs) : patchLineDescription v bs = bs := by
  cases v with
  | none => rfl
  | some d =>
    rcases h with h | ⟨h1, h2⟩
    · simp only [patchLineDescription, firstKey_some_isSome h, if_true]
      exact replaceLine_eq_of_firstKey h
    · simp only [patchLineDescription, firstKey_none_iff.mp h1, Option.isSome_none,
        Bool.false_eq_true, if_false]
      exact insertLine_eq_of_none (firstKey_none_iff.mp h2)

theorem patchLineLocation_id {v : Option (List Char)} {bs : List Block}
    (h : iDone kLOCATION v bs) : patchLineLocation v bs = bs := by
  cases v with
  | none => rfl
  | some w =>
    rcases h with h | ⟨h1, h2⟩
    · simp only [patchLineLocation, firstKey_some_isSome h, if_true]
      exact replaceLine_eq_of_firstKey h
    · simp only [patchLineLocation, firstKey_none_iff.mp h1, Option.isSome_none,
        Bool.false_eq_true, if_false]
      exact insertLine_eq_of_none (firstKey_none_iff.mp h2)

theorem sDone_step (v : Option (List Char)) (bs : List Block) :
    sDone v (patchLineSummary v bs) := by
  cases v with
  | none => trivial
  | some s =>
    cases hse : s.isEmpty with
    | true => exact Or.inl hse
    | false =>
      simp only [patchLineSummary, hse, Bool.false_eq_true, if_false]
      cases hls : (lineSplit kSUMMARY bs).isSome with
      | true => exact Or.inr (Or.inl (firstKey_replaceLine_self hls))
      | false =>
        have hnone := isSome_false_eq_none hls
        rw [replaceLine_eq_of_none hnone]
        exact Or.inr (Or.inr (firstKey_none_iff.mpr hnone))

theorem rDone_stepDtstart (v : Option (List Char)) (bs : List Block) :
    rDone kDTSTART v (patchLineDtstart v bs) := by
  cases v with
  | none => trivial
  | some t =>
    cases hls : (lineSplit kDTSTART bs).isSome with
    | true => exact Or.inl (firstKey_replaceLine_self hls)
    | false =>
      have hnone := isSome_false_eq_none hls
      simp only [patchLineDtstart]
      rw [replaceLine_eq_of_none hnone]
      exact Or.inr (firstKey_none_iff.mpr hnone)

theorem rDone_stepDtend (v : Option (List Char)) (bs : List Block) :
    rDone kDTEND v (patchLineDtend v bs) := by
  cases v with
  | none => trivial
  | some t =>
    cases hls : (lineSplit kDTEND bs).isSome with
    | true => exact Or.inl (firstKey_replaceLine_self hls)
    | false =>
      have hnone := isSome_false_eq_none hls
      simp only [patchLineDtend]
      rw [replaceLine_eq_of_none hnone]
      exact Or.inr (firstKey_none_iff.mpr hnone)

theorem iDone_stepDescription (v : Option (List Char)) (bs : List Block) :
    iDone kDESCRIPTION v (patchLineDescription v bs) := by
  cases v with
  | none => trivial
  | some d =>
    simp only [patchLineDescription]
    cases hls : (lineSplit kDESCRIPTION bs).isSome with
    | true =>
      simp only [if_true]
      exact Or.inl (firstKey_replaceLine_self hls)
    | false =>
      simp only [Bool.false_eq_true, if_false]
      have hnone := isSome_false_eq_none hls
      cases hsum : (lineSplit kSUMMARY bs).isSome with
      | true => exact Or.inl (firstKey_insert_self hnone hsum)
      | false =>
        have hsnone := isSome_false_eq_none hsum
        rw [insertLine_eq_of_none hsnone]
        exact Or.inr ⟨firstKey_none_iff.mpr hnone, firstKey_none_iff.mpr hsnone⟩

theorem iDone_stepLocation (v : Option (List Char)) (bs : List Block) :
    iDone kLOCATION v (patchLineLocation v bs) := by
  cases v with
  | none => trivial
  | some w =>
    simp only [patchLineLocation]
    cases hls : (lineSplit kLOCATION bs).isSome with
    | true =>
      simp only [if_true]
      exact Or.inl (firstKey_replaceLine_self hls)
    | false =>
      simp only [Bool.false_eq_true, if_false]
      have hnone := isSome_false_eq_none hls
      cases hsum : (lineSplit kSUMMARY bs).isSome with
      | true => exact Or.inl (firstKey_insert_self hnone hsum)
      | false =>
        have hsnone := isSome_false_eq_none hsum
        rw [insertLine_eq_of_none hsnone]
        exact Or.inr ⟨firstKey_none_iff.mpr hnone, firstKey_none_iff.mpr hsnone⟩

theorem firstKey_stepDescription {κ : List Char} {v : Option (List Char)} {bs : List Block}
    (h1 : κ ∈ theKeys) (hne : κ ≠ kDESCRIPTION) :
    firstKey κ (patchLineDescription v bs) = firstKey κ bs := by
  cases v with
  | none => rfl
  | some d =>
    simp only [patchLineDescription]
    cases (lineSplit kDESCRIPTION bs).isSome with
    | true =>
      simp only [if_true]
      exact firstKey_replaceLine_other h1 (by decide) hne
    | false =>
      simp only [Bool.false_eq_true, if_false]
      exact firstKey_insertLine h1 (by decide) hne

theorem firstKey_stepLocation {κ : List Char} {v : Option (List Char)} {bs : List Block}
    (h1 : κ ∈ theKeys) (hne : κ ≠ kLOCATION) :
    firstKey κ (patchLineLocation v bs) = firstKey κ bs := by
  cases v with
  | none => rfl
  | some w =>
    simp only [patchLineLocation]
    cases (lineSplit kLOCATION bs).isSome with
    | true =>
      simp only [if_true]
      exact firstKey_replaceLine_other h1 (by decide) hne
    | false =>
      simp only [Bool.false_eq_true, if_false]
      exact firstKey_insertLine h1 (by decide) hne

theorem firstKey_stepDtstart {κ : List Char} {v : Option (List Char)} {bs : List Block}
    (h1 : κ ∈ theKeys) (hne : κ ≠ kDTSTART) :
    firstKey κ (patchLineDtstart v bs) = firstKey κ bs := by
  cases v with
  | none => rfl
  | some t => exact firstKey_replaceLine_other h1 (by decide) hne

theorem firstKey_stepDtend {κ : List Char} {v : Option (List Char)} {bs : List Block}
    (h1 : κ ∈ theKeys) (hne : κ ≠ kDTEND) :
    firstKey κ (patchLineDtend v bs) = firstKey κ bs := by
  cases v with
  | none => rfl
  | some t => exact firstKey_replaceLine_other h1 (by decide) hne

/-- The line-level patch is idempotent, for every patch and every block
list. -/
theorem patchLines_idem (p : EventPatch) (bs : List Block) :
    patchLines p (patchLines p bs) = patchLines p bs := by
  have hS : sDone p.summary
      (patchLineDtend p.dtend (patchLineDtstart p.dtstart (patchLineLocation p.location
        (patchLineDescription p.description (patchLineSummary p.summary bs))))) := by
    refine sDone_congr (firstKey_stepDtend (by decide) (by decide)) ?_
    refine sDone_congr (firstKey_stepDtstart (by decide) (by decide)) ?_
    refine sDone_congr (firstKey_stepLocation (by decide) (by decide)) ?_
    refine sDone_congr (firstKey_stepDescription (by decide) (by decide)) ?_
    exact sDone_step p.summary bs
  have hD : iDone kDESCRIPTION p.description
      (patchLineDtend p.dtend (patchLineDtstart p.dtstart (patchLineLocation p.location
        (patchLineDescription p.description (patchLineSummary p.summary bs))))) := by
    refine iDone_congr (firstKey_stepDtend (by decide) (by decide))
      (firstKey_stepDtend (by decide) (by decide)) ?_
    refine iDone_congr (firstKey_stepDtstart (by decide) (by decide))
      (firstKey_stepDtstart (by decide) (by decide)) ?_
    refine iDone_congr (firstKey_stepLocation (by decide) (by decide))
      (firstKey_stepLocation (by decide) (by decide)) ?_
    exact iDone_stepDescription p.description _
  have hL : iDone kLOCATION p.location
      (patchLineDtend p.dtend (patchLineDtstart p.dtstart (patchLineLocation p.location
        (patchLineDescription p.description (patchLineSummary p.summary bs))))) := by
    refine iDone_congr (firstKey_stepDtend (by decide) (by decide))
      (firstKey_stepDtend (by decide) (by decide)) ?_
    refine iDone_congr (firstKey_stepDtstart (by decide) (by decide))
      (firstKey_stepDtstart (by decide) (by decide)) ?_
    exact iDone_stepLocation p.location _
  have hDS : rDone kDTSTART p.dtstart
      (patchLineDtend p.dtend (patchLineDtstart p.dtstart (patchLineLocation p.location
        (patchLineDescription p.description (patchLineSummary p.summary bs))))) := by
    refine rDone_congr (firstKey_stepDtend (by decide) (by decide)) ?_
    exact rDone_stepDtstart p.dtstart _
  have hDE : rDone kDTEND p.dtend
      (patchLineDtend p.dtend (patchLineDtstart p.dtstart (patchLineLocation p.location
        (patchLineDescription p.description (patchLineSummary p.summary bs))))) :=
    rDone_stepDtend p.dtend _
  show patchLines p (patchLines p bs) = patchLines p bs
  unfold patchLines
  rw [patchLineSummary_id hS, patchLineDescription_id hD, patchLineLocation_id hL,
    patchLineDtstart_id hDS, patchLineDtend_id hDE]

theorem untouched_keyLine_false {p : EventPatch} {κ v : List Char}
    (h : κ ∈ activeKeys p) : untouched p (κ ++ v, CRLF) = false := by
  unfold untouched
  rw [Bool.eq_false_iff]
  intro hall
  have := List.all_eq_true.mp hall κ h
  rw [prefix_self_append] at this
  simp at this

theorem untouched_prefix_false {p : EventPatch} {κ : List Char} {b : Block}
    (h : κ ∈ activeKeys p) (hb : κ.isPrefixOf b.1 = true) : untouched p b = false := by
  unfold untouched
  rw [Bool.eq_false_iff]
  intro hall
  have := List.all_eq_true.mp hall κ h
  rw [hb] at this
  simp at this

theorem filter_replaceLine {κ v : List Char} {bs : List Block} {P : Block → Bool}
    (hnew : P (κ ++ v, CRLF) = false)
    (hold : ∀ b : Block, κ.isPrefixOf b.1 = true → P b = false) :
    (replaceLine κ v bs).filter P = bs.filter P := by
  unfold replaceLine
  cases hs : lineSplit κ bs with
  | none => rfl
  | some x =>
    obtain ⟨pre, b, post⟩ := x
    obtain ⟨hbs, -, hb⟩ := lineSplit_eq hs
    rw [hbs]
    simp [List.filter_append, List.filter_cons, hnew, hold b hb]

theorem filter_insertLine {w : List Char} {bs : List Block} {P : Block → Bool}
    (hnew : P (w, CRLF) = false) :
    (insertLine w bs).filter P = bs.filter P := by
  unfold insertLine
  cases hs : lineSplit kSUMMARY bs with
  | none => rfl
  | some x =>
    obtain ⟨pre, b, post⟩ := x
    obtain ⟨hbs, -, -⟩ := lineSplit_eq hs
    rw [hbs]
    simp [List.filter_append, List.filter_cons, hnew]

theorem filter_patchLineSummary (p : EventPatch) (bs : List Block) :
    (patchLineSummary p.summary bs).filter (untouched p) = bs.filter (untouched p) := by
  cases hv : p.summary with
  | none => rfl
  | some s =>
    cases hse : s.isEmpty with
    | true => simp [patchLineSummary, hse]
    | false =>
      simp only [patchLineSummary, hse, Bool.false_eq_true, if_false]
      have hk : kSUMMARY ∈ activeKeys p := by
        simp [activeKeys, hv, hse]
      exact filter_replaceLine (untouched_keyLine_false hk)
        (fun b hb => untouched_prefix_false hk hb)

theorem filter_patchLineDescription (p : EventPatch) (bs : List Block) :
    (patchLineDescription p.description bs).filter (untouched p) =
      bs.filter (untouched p) := by
  cases hv : p.description with
  | none => rfl
  | some d =>
    have hk : kDESCRIPTION ∈ activeKeys p := by
      simp [activeKeys, hv]
    simp only [patchLineDescription]
    cases (lineSplit kDESCRIPTION bs).isSome with
    | true =>
      simp only [if_true]
      exact filter_replaceLine (untouched_keyLine_false hk)
        (fun b hb => untouched_prefix_false hk hb)
    | false =>
      simp only [Bool.false_eq_true, if_false]
      exact filter_insertLine (untouched_keyLine_false hk)

theorem filter_patchLineLocation (p : EventPatch) (bs : List Block) :
    (patchLineLocation p.location bs).filter (untouched p) =
      bs.filter (untouched p) := by
  cases hv : p.location with
  | none => rfl
  | some w =>
    have hk : kLOCATION ∈ activeKeys p := by
      simp [activeKeys, hv]
    simp only [patchLineLocation]
    cases (lineSplit kLOCATION bs).isSome with
    | true =>
      simp only [if_true]
      exact filter_replaceLine (untouched_keyLine_false hk)
        (fun b hb => untouched_prefix_false hk hb)
    | false =>
      simp only [Bool.false_eq_true, if_false]
      exact filter_insertLine (untouched_keyLine_false hk)

theorem filter_patchLineDtstart (p : EventPatch) (bs : List Block) :
    (patchLineDtstart p.dtstart bs).filter (untouched p) = bs.filter (untouched p) := by
  cases hv : p.dtstart with
  | none => rfl
  | some t =>
    have hk : kDTSTART ∈ activeKeys p := by
      simp [activeKeys, hv]
    exact filter_replaceLine (untouched_keyLine_false hk)
      (fun b hb => untouched_prefix_false hk hb)

theorem filter_patchLineDtend (p : EventPatch) (bs : List Block) :
    (patchLineDtend p.dtend bs).filter (untouched p) = bs.filter (untouched p) := by
  cases hv : p.dtend with
  | none => rfl
  | some t =>
    have hk : kDTEND ∈ activeKeys p := by
      simp [activeKeys, hv]
    exact filter_replaceLine (untouched_keyLine_false hk)
      (fun b hb => untouched_prefix_false hk hb)

/-- The line-level patch leaves every untouched block (in order)
exactly as it was: the sequence of untouched blocks is unchanged. -/
theorem filter_patchLines (p : EventPatch) (bs : List Block) :
    (patchLines p bs).filter (untouched p) = bs.filter (untouched p) := by
  unfold patchLines
  rw [filter_patchLineDtend, filter_patchLineDtstart, filter_patchLineLocation,
    filter_patchLineDescription, filter_patchLineSummary]

theorem firstKey_isSome {κ : List Char} {bs : List Block} :
    (firstKey κ bs).isSome = (lineSplit κ bs).isSome := by
  unfold firstKey
  cases lineSplit κ bs <;> rfl

theorem firstKey_stepSummary {κ : List Char} {v : Option (List Char)} {bs : List Block}
    (h1 : κ ∈ theKeys) (hne : κ ≠ kSUMMARY) :
    firstKey κ (patchLineSummary v bs) = firstKey κ bs := by
  cases v with
  | none => rfl
  | some s =>
    cases hse : s.isEmpty with
    | true => simp [patchLineSummary, hse]
    | false =>
      simp only [patchLineSummary, hse, Bool.false_eq_true, if_false]
      exact firstKey_replaceLine_other h1 (by decide) hne

/-- C1 counterexample: the claim quantifies over every patch, but a
summary value containing a CRLF and a second `SUMMARY:` line breaks
idempotence — the first application rewrites the single SUMMARY line
into two lines, and the second application duplicates the second one.
So applying the source's patch transformation twice differs from
applying it once. -/
theorem c1_counterexample :
    applyPatch { summary := some ("A\r\nSUMMARY:B".toList) }
        (applyPatch { summary := some ("A\r\nSUMMARY:B".toList) }
          ("SUMMARY:a\r\nEND:VEVENT\r\n".toList)) ≠
      applyPatch { summary := some ("A\r\nSUMMARY:B".toList) }
        ("SUMMARY:a\r\nEND:VEVENT\r\n".toList) := by
  decide

/-- C1 (amended): for every body consisting of properly terminated
lines in which the five property names occur only at line starts, and
for every patch whose present field values contain no line
terminators, no `$`, and none of the five property names, the patch
transformation of `update_event` is idempotent: applying it twice
yields the same text as applying it once. -/
theorem c1_patch_idempotent {p : EventPatch} {bs : List Block}
    (hwf : wfBody bs = true) (hp : patchClean p = true) :
    applyPatch p (applyPatch p (flat bs)) = applyPatch p (flat bs) := by
  obtain ⟨e1, w1⟩ := applyPatch_flat hwf hp
  obtain ⟨e2, -⟩ := applyPatch_flat w1 hp
  rw [e1, e2, patchLines_idem]

/-- C1 witness: the amended idempotence theorem applied to a concrete
well-formed body and a concrete clean patch touching all five
fields. -/
theorem c1_patch_idempotent_witness :
    wfBody c1Body = true ∧ patchClean c1Patch = true ∧
      applyPatch c1Patch (applyPatch c1Patch (flat c1Body)) =
        applyPatch c1Patch (flat c1Body) :=
  ⟨by decide, by decide, c1_patch_idempotent (by decide) (by decide)⟩

/-- C2 counterexample: the claim quantifies over all bodies, including
those in which a value contains another property name.  With a patch
touching only the summary, the body whose DESCRIPTION line contains
the text `SUMMARY:` has that DESCRIPTION line rewritten (the regex
`/SUMMARY:.*\r?\n/` matches inside it), so an untouched property line
is not byte-identical before and after. -/
theorem c2_counterexample :
    firstLine (applyPatch { summary := some ("new".toList) }
        ("DESCRIPTION:xSUMMARY:y\r\nSUMMARY:old\r\nEND:VEVENT\r\n".toList)) ≠
      firstLine ("DESCRIPTION:xSUMMARY:y\r\nSUMMARY:old\r\nEND:VEVENT\r\n".toList) := by
  decide

/-- C2 (amended): for every body consisting of properly terminated
lines in which the five property names occur only at line starts, and
for every patch with clean values, the patch transformation acts
line-by-line (`patchLines`), and the sequence of blocks whose line
starts with none of the patch's active keys is byte-identical before
and after the patch. -/
theorem c2_patch_frame {p : EventPatch} {bs : List Block}
    (hwf : wfBody bs = true) (hp : patchClean p = true) :
    applyPatch p (flat bs) = flat (patchLines p bs) ∧
      (patchLines p bs).filter (untouched p) = bs.filter (untouched p) :=
  ⟨(applyPatch_flat hwf hp).1, filter_patchLines p bs⟩

/-- C2 witness: the amended frame theorem applied to a concrete body
and a patch touching only the summary and location; the DESCRIPTION
and END lines are untouched and preserved. -/
theorem c2_patch_frame_witness :
    wfBody c2Body = true ∧ patchClean c2Patch = true ∧
      (applyPatch c2Patch (flat c2Body) = flat (patchLines c2Patch c2Body) ∧
        (patchLines c2Patch c2Body).filter (untouched c2Patch) =
          c2Body.filter (untouched c2Patch)) :=
  ⟨by decide, by decide, c2_patch_frame (by decide) (by decide)⟩

/-- C3 counterexample: a summary present with the empty-string value
does not replace the SUMMARY line — the source guards the summary
block with a truthiness test (`if (summary)`), so the empty string is
skipped and the body is returned unchanged, not with an empty SUMMARY
line. -/
theorem c3_counterexample :
    applyPatch { summary := some [] } ("SUMMARY:old\r\nEND:VEVENT\r\n".toList) =
        "SUMMARY:old\r\nEND:VEVENT\r\n".toList ∧
      ("SUMMARY:old\r\nEND:VEVENT\r\n".toList : List Char) ≠
        "SUMMARY:\r\nEND:VEVENT\r\n".toList :=
  ⟨by decide, by decide⟩

/-- C3 (amended): every present field is applied and every absent
field preserved, except that a summary present as the empty string is
skipped, behaving byte-identically to an absent summary; a
description present as the empty string is still applied.  Stated as:
(1) the patch with an empty-string summary computes the same text as
the patch with summary absent, on every body; (2) on a well-formed
body the transformation is the line-level patch, whose per-field
steps run exactly for the present fields; (3) a present description
(empty allowed), when a DESCRIPTION line exists, leaves the first
DESCRIPTION line holding exactly the new value. -/
theorem c3_present_fields {p : EventPatch} {bs : List Block} {d : List Char}
    (hwf : wfBody bs = true) (hp : patchClean p = true)
    (hd : p.description = some d) (hex : (lineSplit kDESCRIPTION bs).isSome = true) :
    (∀ (q : EventPatch) (t : List Char),
        applyPatch { q with summary := some [] } t =
          applyPatch { q with summary := none } t) ∧
      applyPatch p (flat bs) = flat (patchLines p bs) ∧
      firstKey kDESCRIPTION (patchLines p bs) = some (kDESCRIPTION ++ d, CRLF) := by
  refine ⟨fun q t => rfl, (applyPatch_flat hwf hp).1, ?_⟩
  have h1 : firstKey kDESCRIPTION (patchLineSummary p.summary bs) =
      firstKey kDESCRIPTION bs := firstKey_stepSummary (by decide) (by decide)
  have hex1 : (lineSplit kDESCRIPTION (patchLineSummary p.summary bs)).isSome = true := by
    rw [← firstKey_isSome, h1, firstKey_isSome]
    exact hex
  have h2 : firstKey kDESCRIPTION
      (patchLineDescription p.description (patchLineSummary p.summary bs)) =
      some (kDESCRIPTION ++ d, CRLF) := by
    rw [hd]
    simp only [patchLineDescription, hex1, if_true]
    exact firstKey_replaceLine_self hex1
  show firstKey kDESCRIPTION (patchLines p bs) = some (kDESCRIPTION ++ d, CRLF)
  unfold patchLines
  rw [firstKey_stepDtend (by decide) (by decide),
    firstKey_stepDtstart (by decide) (by decide),
    firstKey_stepLocation (by decide) (by decide)]
  exact h2

/-- C3 witness: the amended theorem applied with an empty-string
summary (skipped) and an empty-string description (applied): the
DESCRIPTION line of the result holds the empty value. -/
theorem c3_present_fields_witness :
    wfBody c3Body = true ∧ patchClean c3Patch = true ∧
      c3Patch.description = some [] ∧
      (lineSplit kDESCRIPTION c3Body).isSome = true ∧
      firstKey kDESCRIPTION (patchLines c3Patch c3Body) =
        some (kDESCRIPTION ++ [], CRLF) :=
  ⟨by decide, by decide, rfl, by decide,
    (c3_present_fields (by decide) (by decide) rfl (by decide)).2.2⟩

theorem dch_spec (n : Nat) :
    (isDig (dch n) && sepP (dch n) && !(dch n == '.')) = true := by
  unfold dch
  rcases (by omega : n % 10 = 0 ∨ n % 10 = 1 ∨ n % 10 = 2 ∨ n % 10 = 3 ∨ n % 10 = 4 ∨
      n % 10 = 5 ∨ n % 10 = 6 ∨ n % 10 = 7 ∨ n % 10 = 8 ∨ n % 10 = 9) with
    h | h | h | h | h | h | h | h | h | h <;> rw [h] <;> decide

theorem isDig_dch (n : Nat) : isDig (dch n) = true := by
  have := dch_spec n
  simp only [Bool.and_eq_true] at this
  exact this.1.1

theorem sepP_dch (n : Nat) : sepP (dch n) = true := by
  have := dch_spec n
  simp only [Bool.and_eq_true] at this
  exact this.1.2

theorem dch_ne_dot (n : Nat) : (dch n == '.') = false := by
  have := dch_spec n
  simp only [Bool.and_eq_true, Bool.not_eq_true'] at this
  exact this.2

theorem filter_sepP_pad2 (n : Nat) : (pad2 n).filter sepP = pad2 n := by
  simp [pad2, List.filter_cons, sepP_dch]

theorem filter_sepP_pad3 (n : Nat) : (pad3 n).filter sepP = pad3 n := by
  simp [pad3, List.filter_cons, sepP_dch]

theorem filter_sepP_pad4 (n : Nat) : (pad4 n).filter sepP = pad4 n := by
  simp [pad4, List.filter_cons, sepP_dch]

theorem dropFrac_append_no_dot {l r : List Char} (h : ∀ c ∈ l, (c == '.') = false) :
    dropFrac (l ++ r) = l ++ dropFrac r := by
  induction l with
  | nil => rfl
  | cons c l ih =>
    have hc : (c == '.') = false := h c (by simp)
    simp only [List.cons_append, dropFrac, hc, Bool.false_and, Bool.false_eq_true, if_false]
    exact congrArg (List.cons c) (ih fun x hx => h x (by simp [hx]))

theorem pad2_no_dot (n : Nat) : ∀ c ∈ pad2 n, (c == '.') = false := by
  intro c hc
  simp only [pad2, List.mem_cons, List.not_mem_nil, or_false] at hc
  rcases hc with rfl | rfl <;> exact dch_ne_dot _

theorem pad4_no_dot (n : Nat) : ∀ c ∈ pad4 n, (c == '.') = false := by
  intro c hc
  simp only [pad4, List.mem_cons, List.not_mem_nil, or_false] at hc
  rcases hc with rfl | rfl | rfl | rfl <;> exact dch_ne_dot _

theorem sepP_dash : sepP '-' = false := by decide

theorem sepP_colon : sepP ':' = false := by decide

theorem sepP_T : sepP 'T' = true := by decide

theorem sepP_dot : sepP '.' = true := by decide

theorem sepP_Z : sepP 'Z' = true := by decide

theorem formatICalDate_eq_compact {p : DateParts} (hy : 0 ≤ p.year ∧ p.year ≤ 9999) :
    formatICalDate p = compactForm p := by
  have hstrip : stripSeps (toISOString p) =
      pad4 p.year.toNat ++ pad2 p.month ++ pad2 p.day ++ 'T' :: pad2 p.hour ++
        pad2 p.minute ++ pad2 p.second ++ '.' :: pad3 p.ms ++ ['Z'] := by
    unfold toISOString
    rw [if_pos hy]
    unfold stripSeps
    simp only [List.filter_append, List.filter_cons, sepP_dash, sepP_colon, sepP_T,
      sepP_dot, sepP_Z, filter_sepP_pad4, filter_sepP_pad3, filter_sepP_pad2,
      Bool.false_eq_true, if_false, if_true, List.filter_nil]
  unfold formatICalDate
  rw [hstrip]
  have hT1 : ∀ c ∈ pad4 p.year.toNat ++ pad2 p.month ++ pad2 p.day ++ 'T' :: pad2 p.hour ++
      pad2 p.minute ++ pad2 p.second, (c == '.') = false := by
    intro c hc
    simp only [List.mem_append, List.mem_cons] at hc
    rcases hc with ((((h | h) | h) | (h | h)) | h) | h
    · exact pad4_no_dot _ c h
    · exact pad2_no_dot _ c h
    · exact pad2_no_dot _ c h
    · subst h; decide
    · exact pad2_no_dot _ c h
    · exact pad2_no_dot _ c h
    · exact pad2_no_dot _ c h
  have hshape : pad4 p.year.toNat ++ pad2 p.month ++ pad2 p.day ++ 'T' :: pad2 p.hour ++
      pad2 p.minute ++ pad2 p.second ++ '.' :: pad3 p.ms ++ ['Z'] =
      (pad4 p.year.toNat ++ pad2 p.month ++ pad2 p.day ++ 'T' :: pad2 p.hour ++
        pad2 p.minute ++ pad2 p.second) ++ ('.' :: (pad3 p.ms ++ ['Z'])) := by
    simp [List.append_assoc]
  rw [hshape, dropFrac_append_no_dot hT1]
  have hdf : dropFrac ('.' :: (pad3 p.ms ++ ['Z'])) = ['Z'] := by
    simp [dropFrac, fracHead, pad3, isDig_dch]
  rw [hdf]
  unfold compactForm
  simp [List.append_assoc]

theorem isCompactForm_compact (p : DateParts) : isCompactForm (compactForm p) = true := by
  unfold compactForm pad4 pad2
  simp [isCompactForm, isDig_dch]

theorem joinCRLF_cons (l : List Char) {ls : List (List Char)} (h : ls ≠ []) :
    joinCRLF (l :: ls) = l ++ CRLF ++ joinCRLF ls := by
  cases ls with
  | nil => exact absurd rfl h
  | cons x xs => rfl

theorem joinCRLF_mid (x : List Char) : ∀ (ls1 : List (List Char)) {ls2 : List (List Char)},
    ls2 ≠ [] → ∃ pre post, joinCRLF (ls1 ++ x :: ls2) = pre ++ x ++ post := by
  intro ls1
  induction ls1 with
  | nil =>
    intro ls2 h
    exact ⟨[], CRLF ++ joinCRLF ls2, by rw [List.nil_append, joinCRLF_cons _ h]; simp⟩
  | cons l ls1 ih =>
    intro ls2 h
    obtain ⟨pre, post, hpp⟩ := ih h
    refine ⟨l ++ CRLF ++ pre, post, ?_⟩
    rw [List.cons_append, joinCRLF_cons _ (by simp), hpp]
    simp [List.append_assoc]

theorem buildICal_dtstart (uid : String) (stamp startP endP : DateParts)
    (summary description location : Option String) :
    ∃ pre post, buildICal uid stamp startP endP summary description location =
      pre ++ ("DTSTART:".toList ++ formatICalDate startP) ++ post := by
  unfold buildICal
  have hshape : (["BEGIN:VCALENDAR".toList, "VERSION:2.0".toList,
      "PRODID:-//Fastmail Calendar MCP//EN".toList, "BEGIN:VEVENT".toList,
      ("UID:" ++ uid).toList, "DTSTAMP:".toList ++ formatICalDate stamp,
      "DTSTART:".toList ++ formatICalDate startP, "DTEND:".toList ++ formatICalDate endP,
      ("SUMMARY:" ++ jsStr summary).toList] ++
      (match description with
       | some d => if d.isEmpty then [] else [("DESCRIPTION:" ++ d).toList]
       | none => []) ++
      (match location with
       | some l0 => if l0.isEmpty then [] else [("LOCATION:" ++ l0).toList]
       | none => []) ++
      ["END:VEVENT".toList, "END:VCALENDAR".toList]) =
      (["BEGIN:VCALENDAR".toList, "VERSION:2.0".toList,
        "PRODID:-//Fastmail Calendar MCP//EN".toList, "BEGIN:VEVENT".toList,
        ("UID:" ++ uid).toList, "DTSTAMP:".toList ++ formatICalDate stamp] :
          List (List Char)) ++
      ("DTSTART:".toList ++ formatICalDate startP) ::
      (["DTEND:".toList ++ formatICalDate endP, ("SUMMARY:" ++ jsStr summary).toList] ++
        (match description with
         | some d => if d.isEmpty then [] else [("DESCRIPTION:" ++ d).toList]
         | none => []) ++
        (match location with
         | some l0 => if l0.isEmpty then [] else [("LOCATION:" ++ l0).toList]
         | none => []) ++
        ["END:VEVENT".toList, "END:VCALENDAR".toList]) := by
    simp
  rw [hshape]
  exact joinCRLF_mid _ _ (by simp)

/-- C8 counterexample: the year 10000 is a valid `Date` (well inside
the representable range), but `toISOString` renders it in the
expanded form `+010000-...`, so after stripping separators the result
is not of the form `YYYYMMDDTHHMMSSZ`. -/
theorem c8_counterexample :
    validParts ⟨10000, 1, 1, 0, 0, 0, 0⟩ = true ∧
      isCompactForm (formatICalDate ⟨10000, 1, 1, 0, 0, 0, 0⟩) = false :=
  ⟨by decide, by decide⟩

/-- C8 (amended): for every valid Date whose year lies in 0–9999 (the
four-digit ISO form), `formatICalDate` returns the ISO-8601 UTC
string with every '-' and ':' removed and the fractional part
dropped — equal to the compact form assembled from the components,
of shape `YYYYMMDDTHHMMSSZ`, and independent of the sub-second
component (truncation, never rounding).  `create_event`'s DTSTART
line and the DTSTART patch of `update_event` use exactly this
encoder. -/
theorem c8_format_compact {p : DateParts} (hv : validParts p = true)
    (hy : 0 ≤ p.year ∧ p.year ≤ 9999) :
    formatICalDate p = compactForm p ∧
      isCompactForm (formatICalDate p) = true ∧
      (∀ ms', formatICalDate { p with ms := ms' } = formatICalDate p) ∧
      (∀ uid stamp endP sm dsc loc, ∃ pre post,
          buildICal uid stamp p endP sm dsc loc =
            pre ++ ("DTSTART:".toList ++ formatICalDate p) ++ post) ∧
      (∀ (env : Env) (sd : String) (t : List Char) (d : JSDate),
          sd.isEmpty = false → env.parseDate sd = some d →
          applyDateField env kDTSTART (some sd) "Invalid start date: " t =
            .ok (replaceFirst kDTSTART (kDTSTART ++ formatICalDate d.parts ++ CRLF) t)) := by
  have he := formatICalDate_eq_compact hy
  refine ⟨he, by rw [he]; exact isCompactForm_compact p, ?_, ?_, ?_⟩
  · intro ms'
    have he' : formatICalDate { p with ms := ms' } = compactForm { p with ms := ms' } :=
      formatICalDate_eq_compact hy
    rw [he, he']
    rfl
  · intro uid stamp endP sm dsc loc
    exact buildICal_dtstart uid stamp p endP sm dsc loc
  · intro env sd t d hne hp
    simp [applyDateField, hne, hp]

/-- C8 witness: the amended theorem applied to the concrete instant
2024-06-15T10:20:30.123Z, whose encoding is `20240615T102030Z`. -/
theorem c8_format_compact_witness :
    validParts ⟨2024, 6, 15, 10, 20, 30, 123⟩ = true ∧
      ((0 : Int) ≤ 2024 ∧ (2024 : Int) ≤ 9999) ∧
      formatICalDate ⟨2024, 6, 15, 10, 20, 30, 123⟩ =
        compactForm ⟨2024, 6, 15, 10, 20, 30, 123⟩ ∧
      formatICalDate ⟨2024, 6, 15, 10, 20, 30, 123⟩ = "20240615T102030Z".toList :=
  ⟨by decide, by decide,
    (c8_format_compact (by decide) (by decide)).1, by decide⟩

theorem locate_trace_fetches (env : Env) (url : Option String) :
    ∀ cals : List DAVCalendar, ∀ c ∈ (locateEvent env url cals).2,
      ∃ u, c = NetCall.fetchObjects u none := by
  intro cals
  induction cals with
  | nil => intro c hc; simp [locateEvent] at hc
  | cons cal rest ih =>
    intro c hc
    simp only [locateEvent] at hc
    cases hf : (env.objectsOf cal.url).find? (fun e => some e.url == url) with
    | some obj =>
      rw [hf] at hc
      simp at hc
      exact ⟨cal.url, hc⟩
    | none =>
      rw [hf] at hc
      simp at hc
      rcases hc with rfl | hc
      · exact ⟨cal.url, rfl⟩
      · exact ih c hc

theorem msg_ne_aux {a b : String} (s y : String)
    (h3 : a.data.take 3 ≠ b.data.take 3) (ha : 3 ≤ a.data.length)
    (hb : 3 ≤ b.data.length) : (a ++ s) ≠ (b ++ y) := by
  intro h
  rw [String.ext_iff, String.data_append, String.data_append] at h
  have h2 := congrArg (List.take 3) h
  rw [List.take_append_eq_append_take, List.take_append_eq_append_take] at h2
  simp only [Nat.sub_eq_zero_of_le ha, Nat.sub_eq_zero_of_le hb, List.take_zero,
    List.append_nil] at h2
  exact h3 h2

theorem invalid_start_ne_notfound (s y : String) :
    ("Invalid start date: " ++ s) ≠ ("Event not found: " ++ y) :=
  msg_ne_aux s y (by decide) (by decide) (by decide)

theorem invalid_end_ne_notfound (s y : String) :
    ("Invalid end date: " ++ s) ≠ ("Event not found: " ++ y) :=
  msg_ne_aux s y (by decide) (by decide) (by decide)

theorem applyDateField_error {env : Env} {κ : List Char} {v : Option String}
    {label : String} {t : List Char} {e : String}
    (h : applyDateField env κ v label t = .error e) :
    ∃ s0, v = some s0 ∧ e = label ++ s0 := by
  cases v with
  | none => simp [applyDateField] at h
  | some s0 =>
    simp only [applyDateField] at h
    cases hse : s0.isEmpty with
    | true => rw [hse] at h; simp at h
    | false =>
      rw [hse] at h
      simp only [Bool.false_eq_true, if_false] at h
      cases hp : env.parseDate s0 with
      | none =>
        rw [hp] at h
        exact ⟨s0, rfl, (Except.error.inj h).symm⟩
      | some d => rw [hp] at h; simp at h

/-- C4: the locator iterates the cached calendar list in its original
order, fetching each calendar's full object set (no time range) and
scanning for the requested url; it stops at the first calendar with a
match, issuing no fetch against later calendars; and `update_event`
fails with the not-found error exactly when no calendar contains a
match. -/
theorem c4_locator (env : Env) (url : Option String) :
    (∀ cals : List DAVCalendar,
        (∀ cal ∈ cals, ∀ o ∈ env.objectsOf cal.url, (some o.url == url) = false) →
        locateEvent env url cals =
          (none, cals.map (fun c => NetCall.fetchObjects c.url none))) ∧
      (∀ (pre : List DAVCalendar) (c : DAVCalendar) (post : List DAVCalendar)
          (obj : DAVCalendarObject),
          (∀ cal ∈ pre, ∀ o ∈ env.objectsOf cal.url, (some o.url == url) = false) →
          (env.objectsOf c.url).find? (fun e => some e.url == url) = some obj →
          locateEvent env url (pre ++ c :: post) =
            (some obj, (pre ++ [c]).map (fun cal => NetCall.fetchObjects cal.url none))) ∧
      (∀ (cals : List DAVCalendar) (args : ToolArgs), url = args.eventUrl →
        ((handleUpdateEvent cals env args).1 =
            .error ("Event not found: " ++ jsStr args.eventUrl) ↔
          (locateEvent env args.eventUrl cals).1 = none)) := by
  refine ⟨?_, ?_, ?_⟩
  · intro cals
    induction cals with
    | nil => intro h; rfl
    | cons cal rest ih =>
      intro h
      have hf : (env.objectsOf cal.url).find? (fun e => some e.url == url) = none :=
        List.find?_eq_none.mpr fun o ho => by simp [h cal (by simp) o ho]
      simp [locateEvent, hf, ih fun c hc o ho => h c (by simp [hc]) o ho]
  · intro pre
    induction pre with
    | nil =>
      intro c post obj hmiss hfind
      simp [locateEvent, hfind]
    | cons cal pre ih =>
      intro c post obj hmiss hfind
      have hf : (env.objectsOf cal.url).find? (fun e => some e.url == url) = none :=
        List.find?_eq_none.mpr fun o ho => by simp [hmiss cal (by simp) o ho]
      simp [locateEvent, hf,
        ih c post obj (fun x hx o ho => hmiss x (by simp [hx]) o ho) hfind]
  · intro cals args hurl
    subst hurl
    constructor
    · intro h
      cases hloc : (locateEvent env args.eventUrl cals).1 with
      | none => rfl
      | some obj =>
        exfalso
        simp only [handleUpdateEvent, hloc] at h
        split at h
        · rename_i e4 h4
          obtain ⟨s0, -, rfl⟩ := applyDateField_error h4
          exact invalid_start_ne_notfound s0 _ (Except.error.inj h)
        · split at h
          · rename_i e5 h5
            obtain ⟨s0, -, rfl⟩ := applyDateField_error h5
            exact invalid_end_ne_notfound s0 _ (Except.error.inj h)
          · simp at h
    · intro h
      simp [handleUpdateEvent, h]

/-- C4 witness: the spec's scenario — calendars A, B, C, D with the
target only in C: the locator fetches A, then B, then C, returns C's
match, and issues no fetch against D. -/
theorem c4_locator_witness :
    locateEvent c4Env (some "EV") [c4CalA, c4CalB, c4CalC, c4CalD] =
      (some c4Obj, [NetCall.fetchObjects "A" none, NetCall.fetchObjects "B" none,
        NetCall.fetchObjects "C" none]) := by
  have h := (c4_locator c4Env (some "EV")).2.1 [c4CalA, c4CalB] c4CalC [c4CalD] c4Obj
    (by decide) (by decide)
  simpa using h

/-- C5 counterexample: `update_event` with a malformed `startDate`
issues the locator's calendar fetch before the date validation fails:
the trace is nonempty, contradicting "fails before any calendar
fetch". -/
theorem c5_counterexample :
    handleUpdateEvent [c5Cal] c5Env c5Args =
        (.error ("Invalid start date: " ++ "BAD"), [NetCall.fetchObjects "calA" none]) ∧
      [NetCall.fetchObjects "calA" none] ≠ ([] : List NetCall) :=
  ⟨rfl, by decide⟩

/-- C5 (amended): `list_events` and `create_event` raise their
argument-validation errors (unparseable dates; for create also an end
instant not after the start) before issuing any network call for the
operation — their traces are empty on failure; `update_event`
validates its dates only after the locator's calendar fetches, but
every call in its failure trace is a calendar fetch — the update
request itself is never issued. -/
theorem c5_validation {cals : List DAVCalendar} {env : Env} {args : ToolArgs} :
    ((parseArgDate env args.startDate = none ∨ parseArgDate env args.endDate = none) →
        (∃ e, (handleListEvents cals env args).1 = .error e) ∧
          (handleListEvents cals env args).2 = []) ∧
      ((parseArgDate env args.startDate = none ∨ parseArgDate env args.endDate = none ∨
          (∃ sd ed, parseArgDate env args.startDate = some sd ∧
            parseArgDate env args.endDate = some ed ∧ ed.ms ≤ sd.ms)) →
        (∃ e, (handleCreateEvent cals env args).1 = .error e) ∧
          (handleCreateEvent cals env args).2 = []) ∧
      (∀ sd, args.startDate = some sd → sd.isEmpty = false → env.parseDate sd = none →
        (∃ e, (handleUpdateEvent cals env args).1 = .error e) ∧
          ∀ c ∈ (handleUpdateEvent cals env args).2, ∃ u, c = NetCall.fetchObjects u none) := by
  refine ⟨?_, ?_, ?_⟩
  · intro h
    cases hf : cals.find? (fun cal => some cal.url == args.calendarUrl) with
    | none => simp [handleListEvents, hf]
    | some cal =>
      cases hs : parseArgDate env args.startDate with
      | none => simp [handleListEvents, hf, hs]
      | some sd =>
        rcases h with h | h
        · rw [hs] at h; simp at h
        · simp [handleListEvents, hf, hs, h]
  · intro h
    cases hf : cals.find? (fun cal => some cal.url == args.calendarUrl) with
    | none => simp [handleCreateEvent, hf]
    | some cal =>
      cases hs : parseArgDate env args.startDate with
      | none => simp [handleCreateEvent, hf, hs]
      | some sd =>
        cases he : parseArgDate env args.endDate with
        | none => simp [handleCreateEvent, hf, hs, he]
        | some ed =>
          rcases h with h | h | ⟨sd', ed', hsd', hed', hle⟩
          · rw [hs] at h; simp at h
          · rw [he] at h; simp at h
          · rw [hs] at hsd'
            rw [he] at hed'
            obtain rfl : sd = sd' := by simpa using hsd'
            obtain rfl : ed = ed' := by simpa using hed'
            simp [handleCreateEvent, hf, hs, he, if_pos hle]
  · intro sd hsd hse hp
    cases hloc : (locateEvent env args.eventUrl cals).1 with
    | none =>
      constructor
      · exact ⟨"Event not found: " ++ jsStr args.eventUrl, by simp [handleUpdateEvent, hloc]⟩
      · intro c hc
        simp only [handleUpdateEvent, hloc] at hc
        exact locate_trace_fetches env args.eventUrl cals c hc
    | some obj =>
      have hadf : applyDateField env kDTSTART args.startDate "Invalid start date: "
          (patchLocation (args.location.map String.toList)
            (patchDescription (args.description.map String.toList)
              (patchSummary (args.summary.map String.toList) obj.data))) =
          .error ("Invalid start date: " ++ sd) := by
        rw [hsd]
        simp [applyDateField, hse, hp]
      constructor
      · exact ⟨"Invalid start date: " ++ sd, by simp [handleUpdateEvent, hloc, hadf]⟩
      · intro c hc
        simp only [handleUpdateEvent, hloc, hadf] at hc
        exact locate_trace_fetches env args.eventUrl cals c hc

/-- C5 witness: the amended theorem applied concretely: `create_event`
with end = start (not strictly after) fails with an empty network
trace. -/
theorem c5_validation_witness :
    (∃ e, (handleCreateEvent [c5Cal] c5WitEnv c5WitArgs).1 = .error e) ∧
      (handleCreateEvent [c5Cal] c5WitEnv c5WitArgs).2 = [] :=
  (@c5_validation [c5Cal] c5WitEnv c5WitArgs).2.1
    (Or.inr (Or.inr ⟨⟨0, ⟨2024, 1, 1, 10, 0, 0, 0⟩⟩, ⟨0, ⟨2024, 1, 1, 10, 0, 0, 0⟩⟩,
      rfl, rfl, by decide⟩))

/-- C6: a `calendarUrl` matching no cached calendar makes
`list_events` and `create_event` fail with the not-found error while
issuing no network call. -/
theorem c6_calendar_membership {cals : List DAVCalendar} {env : Env} {args : ToolArgs}
    (h : ∀ cal ∈ cals, (some cal.url == args.calendarUrl) = false) :
    handleListEvents cals env args =
        (.error ("Calendar not found: " ++ jsStr args.calendarUrl), []) ∧
      handleCreateEvent cals env args =
        (.error ("Calendar not found: " ++ jsStr args.calendarUrl), []) := by
  have hf : cals.find? (fun cal => some cal.url == args.calendarUrl) = none :=
    List.find?_eq_none.mpr fun x hx => by simp [h x hx]
  exact ⟨by simp [handleListEvents, hf], by simp [handleCreateEvent, hf]⟩

/-- C6 witness: the theorem applied to a concrete unknown calendar
url: both operations fail with the not-found message and an empty
trace. -/
theorem c6_calendar_membership_witness :
    handleListEvents [c6Cal] c6Env c6Args =
        (.error ("Calendar not found: " ++ jsStr c6Args.calendarUrl), []) ∧
      handleCreateEvent [c6Cal] c6Env c6Args =
        (.error ("Calendar not found: " ++ jsStr c6Args.calendarUrl), []) :=
  c6_calendar_membership (by decide)

/-- C7: the dispatcher never lets a failure escape: every error raised
by the try-block (initialization, validation, locator, patch, or the
CalDAV capability) becomes a result whose text is the human-readable
message prefixed with `Error: ` and whose error flag is set; success
results carry a cleared flag; and an unrecognized operation name
(after a successful initialization) yields the `Unknown tool` error
result. -/
theorem c7_error_envelope (name : String) (args : ToolArgs) (st : SessionState) (env : Env) :
    (∀ e tr, handleToolCall name args st env = (.error e, tr) →
        callTool name args st env = ({ text := "Error: " ++ e, isError := true }, tr)) ∧
      (∀ t tr, handleToolCall name args st env = (.ok t, tr) →
        callTool name args st env = ({ text := t, isError := false }, tr)) ∧
      (name ∉ (["list_calendars", "list_events", "create_event", "update_event",
          "delete_event"] : List String) →
        ∀ st' tr, initializeClient st env = (.ok st', tr) →
        callTool name args st env =
          ({ text := "Error: " ++ ("Unknown tool: " ++ name), isError := true }, tr)) := by
  refine ⟨?_, ?_, ?_⟩
  · intro e tr h
    simp [callTool, h]
  · intro t tr h
    simp [callTool, h]
  · intro hname st' tr hinit
    simp only [List.mem_cons, List.not_mem_nil, or_false, not_or] at hname
    obtain ⟨h1, h2, h3, h4, h5⟩ := hname
    simp [callTool, handleToolCall, hinit, h1, h2, h3, h4, h5]

/-- C7 witness: the unrecognized operation name `frobnicate` yields
the flagged `Unknown tool` error result. -/
theorem c7_error_envelope_witness :
    callTool "frobnicate" {} c7State c7Env =
      ({ text := "Error: " ++ ("Unknown tool: " ++ "frobnicate"), isError := true }, []) :=
  (c7_error_envelope "frobnicate" {} c7State c7Env).2.2 (by decide) c7State [] rfl

/-- C9 counterexample: two tool calls that both reach
`initializeClient` before either handshake resolves (the alternating
schedule A, B, A, B, A, B) perform two authentication handshakes, not
exactly one: the null test and the assignment are separated by the
awaited `createDAVClient`, and there is no in-flight guard. -/
theorem c9_counterexample :
    (runInit c9Env [true, false, true, false, true, false]
      { davClient := none, calendarList := [], pcA := 0, pcB := 0,
        handshakes := 0 }).handshakes = 2 := by
  decide

/-- C9 (amended): a first initialization performs exactly one
handshake (one `createDAVClient` and one `fetchCalendars` call) and
caches the server's calendar list; an initialization that begins
after a completed one performs no network call at all and returns the
same session unchanged.  Two overlapping first initializations,
however, may each perform a handshake, as the counterexample schedule
shows. -/
theorem c9_lazy_init (st1 st2 : SessionState) (env : Env) (c c2 : Nat)
    (h1 : st1.davClient = some c) (h2 : st2.davClient = none)
    (h3 : env.authResult = .ok c2) :
    initializeClient st1 env = (.ok st1, []) ∧
      initializeClient st2 env =
        (.ok { davClient := some c2, calendars := env.serverCalendars },
          [NetCall.createClient, NetCall.fetchCalendars]) := by
  constructor
  · simp [initializeClient, h1]
  · simp [initializeClient, h2, h3]

/-- C9 witness: the amended theorem applied to an initialized session
(no-op, no network call) and a fresh session (exactly one
handshake). -/
theorem c9_lazy_init_witness :
    initializeClient { davClient := some 7, calendars := [] } c9Env =
        (.ok { davClient := some 7, calendars := [] }, []) ∧
      initializeClient {} c9Env =
        (.ok { davClient := some 0, calendars := c9Env.serverCalendars },
          [NetCall.createClient, NetCall.fetchCalendars]) :=
  c9_lazy_init { davClient := some 7, calendars := [] } {} c9Env 7 0 rfl rfl rfl

/-- C10: `update_event` ignores any caller-supplied etag (its
destructuring never names one), and every update request it emits
carries exactly the etag of the object returned by the locator's own
fetch in the same call, addressed to the requested event url. -/
theorem c10_update_etag (cals : List DAVCalendar) (env : Env) (args : ToolArgs) :
    (∀ e1 e2 : Option String,
        handleUpdateEvent cals env { args with etag := e1 } =
          handleUpdateEvent cals env { args with etag := e2 }) ∧
      (∀ u d e, NetCall.updateObject u d e ∈ (handleUpdateEvent cals env args).2 →
        ∃ obj, (locateEvent env args.eventUrl cals).1 = some obj ∧ e = obj.etag ∧
          u = jsStr args.eventUrl) := by
  constructor
  · intro e1 e2
    rfl
  · intro u d e hmem
    cases hloc : (locateEvent env args.eventUrl cals).1 with
    | none =>
      exfalso
      simp only [handleUpdateEvent, hloc] at hmem
      obtain ⟨u', hu'⟩ := locate_trace_fetches env args.eventUrl cals _ hmem
      simp at hu'
    | some obj =>
      refine ⟨obj, rfl, ?_⟩
      simp only [handleUpdateEvent, hloc] at hmem
      split at hmem
      · exfalso
        obtain ⟨u', hu'⟩ := locate_trace_fetches env args.eventUrl cals _ hmem
        simp at hu'
      · split at hmem
        · exfalso
          obtain ⟨u', hu'⟩ := locate_trace_fetches env args.eventUrl cals _ hmem
          simp at hu'
        · simp only [List.mem_append, List.mem_singleton] at hmem
          rcases hmem with hmem | hmem
          · exfalso
            obtain ⟨u', hu'⟩ := locate_trace_fetches env args.eventUrl cals _ hmem
            simp at hu'
          · obtain ⟨h1, -, h3⟩ := NetCall.updateObject.inj hmem
            exact ⟨h3, h1⟩

/-- C10 witness: the theorem applied to a concrete update whose
emitted request carries the located object's etag `W9`, not the
caller's `CALLER`. -/
theorem c10_update_etag_witness :
    ∃ obj, (locateEvent c10Env c10Args.eventUrl [c10Cal]).1 = some obj ∧
      "W9" = obj.etag ∧ "E1" = jsStr c10Args.eventUrl :=
  (c10_update_etag [c10Cal] c10Env c10Args).2 "E1"
    ("SUMMARY:T\r\nEND:VEVENT\r\n".toList) "W9" (by decide)

end FastmailCal

